import Mathlib

/-
  Verification of the express-helper request-argument resolution and dispatch
  engine against its natural-language specification.

  The development is a shallow embedding of the repository's core:
  - `src/validator.ts`   : `AbstractParsePipe`, `ParseDefaultPipe`, `IntPipe`
  - `src/error.ts`       : `ExpressHelperError`, `ValidatePipeError`
  - `src/controller.ts`  : `argumentsResolvedHandler`, `Controller`,
                           `RestController`, the parameter decorators and the
                           metadata store they use
  - `src/handler.ts`     : `expressHelperEndpoint`
  - `src/http.ts`        : `HttpMethod`

  JavaScript machine numbers are idealised as exact rationals extended with
  NaN and the two infinities; none of the verified properties depends on
  floating-point rounding.  Plain JavaScript objects are abstracted by an
  identity token (no verified property inspects an object's fields).
-/

/-- A JavaScript number: NaN, +Infinity, -Infinity, or a finite value
(idealised as an exact rational). -/
inductive JsNum where
  | nan
  | posInf
  | negInf
  | val (q : ℚ)
deriving DecidableEq

/-- Model of `isNaN` on the JavaScript number domain. -/
def JsNum.isNaN : JsNum → Bool
  | .nan => true
  | _ => false

/-- A JavaScript value as it flows through the resolver: `undefined`, `null`,
booleans, numbers, strings, plain objects (abstracted by an identity token),
and the live Express request/response objects (opaque references). -/
inductive JsValue where
  | undef
  | nullV
  | boolV (b : Bool)
  | numV (n : JsNum)
  | strV (s : String)
  | objV (id : Nat)
  | requestRef
  | responseRef
deriving DecidableEq

/-- JavaScript truthiness: `undefined`, `null`, `false`, `0`, `NaN` and the
empty string are falsy, everything else is truthy. -/
def JsValue.truthy : JsValue → Bool
  | .undef => false
  | .nullV => false
  | .boolV b => b
  | .numV .nan => false
  | .numV (.val q) => decide (q ≠ 0)
  | .numV _ => true
  | .strV s => decide (s ≠ "")
  | _ => true

/-- The whitespace characters trimmed by `ToNumber` / `parseInt`. -/
def isJsWhitespace (c : Char) : Bool :=
  c = ' ' || c = '\t' || c = '\n' || c = '\r' || c = '\x0b' || c = '\x0c'

/-- Trim leading and trailing JavaScript whitespace from a character list. -/
def trimJs (cs : List Char) : List Char :=
  ((cs.dropWhile isJsWhitespace).reverse.dropWhile isJsWhitespace).reverse

/-- Numeric value of a digit character (decimal digits and hex letters). -/
def charDigitVal (c : Char) : Nat :=
  if '0' ≤ c ∧ c ≤ '9' then c.toNat - '0'.toNat
  else if 'a' ≤ c ∧ c ≤ 'f' then c.toNat - 'a'.toNat + 10
  else if 'A' ≤ c ∧ c ≤ 'F' then c.toNat - 'A'.toNat + 10
  else 0

/-- Value of a digit string in the given radix. -/
def digitsVal (radix : Nat) (cs : List Char) : Nat :=
  cs.foldl (fun a c => a * radix + charDigitVal c) 0

def isBinDigit (c : Char) : Bool := c = '0' || c = '1'

def isOctDigit (c : Char) : Bool := '0' ≤ c && c ≤ '7'

def isHexDigitJs (c : Char) : Bool :=
  ('0' ≤ c && c ≤ '9') || ('a' ≤ c && c ≤ 'f') || ('A' ≤ c && c ≤ 'F')

/-- Parse an exponent part (`e`/`E`, optional sign, digits); the whole rest of
the input must be consumed.  An empty rest denotes exponent `0`. -/
def parseExpPart (cs : List Char) : Option Int :=
  match cs with
  | [] => some 0
  | c :: rest =>
    if c = 'e' ∨ c = 'E' then
      match rest with
      | '+' :: ds =>
        if ds ≠ [] ∧ ds.all Char.isDigit then some (digitsVal 10 ds) else none
      | '-' :: ds =>
        if ds ≠ [] ∧ ds.all Char.isDigit then some (-(digitsVal 10 ds : Int)) else none
      | ds =>
        if ds ≠ [] ∧ ds.all Char.isDigit then some (digitsVal 10 ds) else none
    else none

/-- The rational `n / 1` built from a natural number, via kernel-friendly
primitive constructors. -/
def qOfNat (n : Nat) : ℚ := Rat.divInt (Int.ofNat n) 1

/-- The rational `n / 1` built from an integer. -/
def qOfInt (n : Int) : ℚ := Rat.divInt n 1

/-- Exact value of the decimal literal `ip . fp × 10 ^ e`. -/
def decLitVal (ip fp : List Char) (e : Int) : ℚ :=
  let m : Int := Int.ofNat (digitsVal 10 ip * Nat.pow 10 fp.length + digitsVal 10 fp)
  let k : Int := e - Int.ofNat fp.length
  if 0 ≤ k then Rat.divInt (m * Int.ofNat (Nat.pow 10 k.toNat)) 1
  else Rat.divInt m (Int.ofNat (Nat.pow 10 (-k).toNat))

/-- Parse a decimal mantissa (`digits [. digits]` or `. digits`), returning its
integral digits, fractional digits and the unconsumed rest. -/
def parseDecMantissa (cs : List Char) : Option (List Char × List Char × List Char) :=
  let ip := cs.takeWhile Char.isDigit
  let rest := cs.dropWhile Char.isDigit
  match rest with
  | '.' :: rest2 =>
    let fp := rest2.takeWhile Char.isDigit
    let rest3 := rest2.dropWhile Char.isDigit
    if ip = [] ∧ fp = [] then none else some (ip, fp, rest3)
  | _ => if ip = [] then none else some (ip, [], rest)

/-- Parse an unsigned `StrDecimalLiteral` body: `Infinity` or a decimal
mantissa followed by an optional exponent; the whole input must be consumed. -/
def parseUnsignedNumber (cs : List Char) : Option JsNum :=
  if cs = ['I', 'n', 'f', 'i', 'n', 'i', 't', 'y'] then some .posInf
  else
    match parseDecMantissa cs with
    | some (ip, fp, rest) => (parseExpPart rest).map (fun e => .val (decLitVal ip fp e))
    | none => none

/-- Parse a `NonDecimalIntegerLiteral` (`0x`/`0o`/`0b` forms, no sign). -/
def parseNonDecimal (cs : List Char) : Option JsNum :=
  match cs with
  | '0' :: x :: ds =>
    if (x = 'x' ∨ x = 'X') ∧ ds ≠ [] ∧ ds.all isHexDigitJs then
      some (.val (qOfNat (digitsVal 16 ds)))
    else if (x = 'o' ∨ x = 'O') ∧ ds ≠ [] ∧ ds.all isOctDigit then
      some (.val (qOfNat (digitsVal 8 ds)))
    else if (x = 'b' ∨ x = 'B') ∧ ds ≠ [] ∧ ds.all isBinDigit then
      some (.val (qOfNat (digitsVal 2 ds)))
    else none
  | _ => none

/-- ECMAScript `StringToNumber` on the rational fragment: trim whitespace, the
empty string is `0`, a sign may precede a decimal literal or `Infinity`, and an
unsigned literal may also be hexadecimal/octal/binary. -/
def jsStringToNumber (s : String) : JsNum :=
  match trimJs s.toList with
  | [] => .val 0
  | '+' :: rest => (parseUnsignedNumber rest).getD .nan
  | '-' :: rest =>
    match parseUnsignedNumber rest with
    | some .posInf => .negInf
    | some (.val q) => .val (Rat.neg q)
    | _ => .nan
  | cs =>
    match parseNonDecimal cs with
    | some n => n
    | none => (parseUnsignedNumber cs).getD .nan

/-- ECMAScript `ToNumber` on the modelled value domain (a plain object's
`ToPrimitive` string never parses as a number, hence NaN). -/
def jsToNumber : JsValue → JsNum
  | .undef => .nan
  | .nullV => .val 0
  | .boolV b => .val (if b then 1 else 0)
  | .numV n => n
  | .strV s => jsStringToNumber s
  | _ => .nan

/-- The sign factor of `parseInt` (a leading `-` negates). -/
def parseIntSign (cs : List Char) : Int :=
  match cs with
  | '-' :: _ => -1
  | _ => 1

/-- The digits of `parseInt` after stripping an optional sign. -/
def parseIntBody (cs : List Char) : List Char :=
  match cs with
  | '+' :: r => r
  | '-' :: r => r
  | _ => cs

/-- Whether `parseInt`'s input (sign stripped) carries a `0x`/`0X` prefix. -/
def parseIntIsHex (cs2 : List Char) : Bool :=
  match cs2 with
  | '0' :: x :: _ => x = 'x' || x = 'X'
  | _ => false

/-- Core of `parseInt` on a trimmed character list: optional sign, optional `0x`/`0X`
prefix (radix 16, otherwise 10), then the longest prefix of digits of that
radix; no digits gives NaN. -/
def jsParseIntCore (cs : List Char) : JsNum :=
  if parseIntIsHex (parseIntBody cs) then
    let ds := ((parseIntBody cs).drop 2).takeWhile isHexDigitJs
    if ds = [] then .nan
    else .val (qOfInt (parseIntSign cs * Int.ofNat (digitsVal 16 ds)))
  else
    let ds := (parseIntBody cs).takeWhile Char.isDigit
    if ds = [] then .nan
    else .val (qOfInt (parseIntSign cs * Int.ofNat (digitsVal 10 ds)))

/-- Model of `parseInt(s)` with no radix argument: trim whitespace, then parse. -/
def jsParseIntStr (s : String) : JsNum :=
  jsParseIntCore (trimJs s.toList)

/-- Model of `ToString` for the values `parseInt` may receive (non-integral numbers are
outside the verified fragment and are rendered via their rational `toString`). -/
def jsToStringVal : JsValue → String
  | .undef => "undefined"
  | .nullV => "null"
  | .boolV b => if b then "true" else "false"
  | .numV .nan => "NaN"
  | .numV .posInf => "Infinity"
  | .numV .negInf => "-Infinity"
  | .numV (.val q) => if q.den = 1 then toString q.num else toString q
  | .strV s => s
  | .objV _ => "[object Object]"
  | .requestRef => "[object Object]"
  | .responseRef => "[object Object]"

/-- Model of `parseInt(value)` on an arbitrary value: `ToString` then string parse. -/
def jsParseInt (v : JsValue) : JsNum := jsParseIntStr (jsToStringVal v)

/-- A thrown JavaScript error value, classified the way the boundary
middleware classifies it: an `ExpressHelperError` (or subclass such as
`ValidatePipeError`) carrying a status code and message, any other `Error`
instance (e.g. a `TypeError`), or a thrown value that is not an `Error`. -/
inductive JsError where
  | helper (statusCode : Nat) (message : String)
  | genericError (message : String)
  | thrownValue (v : JsValue)
deriving DecidableEq

/-- Model of `AbstractParsePipe` from `src/validator.ts`: a validate/parse pair with a
configured failure status code and message. -/
structure AbstractParsePipe where
  validate : JsValue → Bool
  parse : JsValue → JsValue
  statusCode : Nat
  message : String

/-- Default failure status code (`AbstractParsePipe.DEFAULT_FAIL_STATUS_CODE`). -/
def AbstractParsePipe.DEFAULT_FAIL_STATUS_CODE : Nat := 400

/-- Default failure message (`AbstractParsePipe.DEFAULT_RESPONSE_MESSAGE`). -/
def AbstractParsePipe.DEFAULT_RESPONSE_MESSAGE : String := "Bad Request"

/-- Pipe construction with the constructor's default status and message. -/
def AbstractParsePipe.mkDefault (validate : JsValue → Bool) (parse : JsValue → JsValue) :
    AbstractParsePipe :=
  ⟨validate, parse, AbstractParsePipe.DEFAULT_FAIL_STATUS_CODE,
    AbstractParsePipe.DEFAULT_RESPONSE_MESSAGE⟩

/-- Model of `AbstractParsePipe.pipe`: validate, and either parse or throw a
`ValidatePipeError` (an `ExpressHelperError`) with the pipe's status/message. -/
def AbstractParsePipe.pipe (P : AbstractParsePipe) (value : JsValue) :
    Except JsError JsValue :=
  if P.validate value then .ok (P.parse value)
  else .error (.helper P.statusCode P.message)

/-- Model of `ParseEmptyPipe` (an instance of `ParseDefaultPipe`): always valid,
parses to the input unchanged. -/
def ParseEmptyPipe : AbstractParsePipe :=
  AbstractParsePipe.mkDefault (fun _ => true) (fun v => v)

/-- Model of `ParseIntPipe` (an instance of `IntPipe`): valid iff `Number(value)` is
not NaN; parses via `parseInt(value)`. -/
def ParseIntPipe : AbstractParsePipe :=
  AbstractParsePipe.mkDefault (fun v => !(jsToNumber v).isNaN) (fun v => .numV (jsParseInt v))

/-- Model of `ParamMetadata` from `src/types.ts`: a named path/query binding with its
argument position and pipe. -/
structure ParamMetadata where
  value : String
  paramIndex : Nat
  validatePipe : AbstractParsePipe

/-- Model of `BodyMetadata`: the body binding's argument position and pipe. -/
structure BodyMetadata where
  paramIndex : Nat
  validatePipe : AbstractParsePipe

/-- Model of `CookieMetadata`: a named cookie binding with its argument position and
pipe. -/
structure CookieMetadata where
  value : String
  paramIndex : Nat
  validatePipe : AbstractParsePipe

/-- The per-method metadata `argumentsResolvedHandler` reads at registration
time (lines 141-156 of `src/controller.ts`); each field is `none` when the
corresponding `Reflect.getMetadata` call returns `undefined`. -/
structure MethodMetadata where
  requestMetaData : Option Nat
  responseMetaData : Option Nat
  bodyMetaData : Option BodyMetadata
  authenticationMetaData : Option Nat
  cookieMetaData : Option CookieMetadata
  pathParamArgumentMetadata : Option (List ParamMetadata)
  queryParamArgumentMetadata : Option (List ParamMetadata)

/-- An incoming Express request, restricted to what the resolver reads:
path parameters, query parameters, the optional pre-parsed cookie jar
(`request.cookies`), the raw `Cookie` header (`request.headers.cookie`),
the parsed body and the authenticated principal (`request.user`). -/
structure JsRequest where
  params : List (String × String)
  query : List (String × String)
  cookies : Option (List (String × String))
  headersCookie : Option String
  body : JsValue
  user : JsValue

/-- JavaScript property lookup on a string map: `m[k]` is the value or
`undefined`. -/
def lookupStr (m : List (String × String)) (k : String) : Option String :=
  m.lookup k

/-- Write `resolvedArguments[i] = v`.  All argument indices produced by the
parameter decorators are below the method's arity (`descriptor.value.length`),
so the out-of-range case (where `List.set` is a no-op) is never reached under
that invariant, which the theorems carry as a hypothesis where it matters. -/
def setArg (st : List JsValue) (i : Nat) (v : JsValue) : List JsValue :=
  st.set i v

/-- The result of one step (or of a whole invocation) of the resolver: the
`resolvedArguments` array afterwards, and the thrown error if any.  An error
aborts the remaining steps; `none` means the step chain continued. -/
abbrev StepResult : Type := List JsValue × Option JsError

/-- Model of `header.split('; ')` on character lists (structurally recursive so that
concrete instances evaluate in the kernel). -/
def splitSemiSpace : List Char → List Char → List (List Char)
  | [], acc => [acc.reverse]
  | [c], acc => [(c :: acc).reverse]
  | c1 :: c2 :: rest, acc =>
    if c1 = ';' ∧ c2 = ' ' then acc.reverse :: splitSemiSpace rest []
    else splitSemiSpace (c2 :: rest) (c1 :: acc)

/-- Model of `c.split('=')` on character lists. -/
def splitEq : List Char → List Char → List (List Char)
  | [], acc => [acc.reverse]
  | c :: rest, acc =>
    if c = '=' then acc.reverse :: splitEq rest []
    else splitEq rest (c :: acc)

/-- Sequence two resolver steps: a thrown error short-circuits. -/
def andThenStep (r : StepResult) (f : List JsValue → StepResult) : StepResult :=
  match r with
  | (st, some e) => (st, some e)
  | (st, none) => f st

/-- Lines 164-178 of `src/controller.ts`: resolve a list of path or query
bindings in order; a missing key throws `ExpressHelperError(400, "Bad
Request")`, otherwise the pipe runs and its result is written at the binding's
`paramIndex` (`pipe` itself may throw). -/
def resolveParamList (lookup : String → Option String) :
    List ParamMetadata → List JsValue → StepResult
  | [], st => (st, none)
  | b :: rest, st =>
    match lookup b.value with
    | none => (st, some (.helper 400 "Bad Request"))
    | some p =>
      match b.validatePipe.pipe (.strV p) with
      | .error e => (st, some e)
      | .ok v => resolveParamList lookup rest (setArg st b.paramIndex v)

/-- The raw-header fallback scan (lines 185-190): split the header on `"; "`,
destructure each pair on `"="`, and when the key matches the cookie binding's
name, pipe the value and write it at the Body binding's `paramIndex` (the
source writes to `bodyMetaData.paramIndex`, not the cookie's own index). -/
def cookieFallbackScan (cm : CookieMetadata) (bodyIdx : Nat) :
    List (List Char) → List JsValue → StepResult
  | [], st => (st, none)
  | c :: rest, st =>
    let parts := splitEq c []
    let key := String.mk (parts.getD 0 [])
    let vl : JsValue := match parts.get? 1 with
      | some v => .strV (String.mk v)
      | none => .undef
    if key = cm.value then
      match cm.validatePipe.pipe vl with
      | .error e => (st, some e)
      | .ok v => cookieFallbackScan cm bodyIdx rest (setArg st bodyIdx v)
    else cookieFallbackScan cm bodyIdx rest st

/-- Truthiness of `request.headers.cookie` (absent or empty is falsy). -/
def headerCookieTruthy (req : JsRequest) : Bool :=
  match req.headersCookie with
  | some s => decide (s ≠ "")
  | none => false

/-- Lines 179-196: the cookie step.  With a pre-parsed jar the piped value of
`request.cookies[name]` is written at `bodyMetaData.paramIndex`; without a jar
but with a truthy raw `Cookie` header, the fallback scan runs and afterwards
`resolvedArguments[bodyMetaData.paramIndex] === undefined` throws
`ExpressHelperError(400, "Bad Request")`.  In both branches the source reads
`bodyMetaData.paramIndex`; when no Body binding exists `bodyMetaData` is
`undefined` and that property read throws a `TypeError`. -/
def cookieStep (md : MethodMetadata) (req : JsRequest) (st : List JsValue) : StepResult :=
  match md.cookieMetaData with
  | none => (st, none)
  | some cm =>
    match req.cookies with
    | some jar =>
      match md.bodyMetaData with
      | none => (st, some (.genericError "TypeError"))
      | some b =>
        let raw : JsValue := match lookupStr jar cm.value with
          | some v => .strV v
          | none => .undef
        match cm.validatePipe.pipe raw with
        | .error e => (st, some e)
        | .ok v => (setArg st b.paramIndex v, none)
    | none =>
      if headerCookieTruthy req then
        match md.bodyMetaData with
        | none => (st, some (.genericError "TypeError"))
        | some b =>
          match cookieFallbackScan cm b.paramIndex
              (splitSemiSpace (req.headersCookie.getD "").toList []) st with
          | (st2, some e) => (st2, some e)
          | (st2, none) =>
            match st2.getD b.paramIndex .undef with
            | .undef => (st2, some (.helper 400 "Bad Request"))
            | _ => (st2, none)
      else (st, none)

/-- Lines 158-196 of `src/controller.ts`: the body of the closure returned by
`argumentsResolvedHandler`, as a function of the `resolvedArguments` array it
mutates (the source allocates that array once, at registration time).  On a
`none` error the handler is invoked with the final array; on `some e` the
error propagates.  Note the source's authentication guard compares the
metadata *key* symbol against `undefined` (always false), so the
authenticated-user write is unconditional; when no AuthenticatedUser binding
exists the write targets the non-index property `"undefined"`, which the
positional spread `descriptor.value(...resolvedArguments)` never reads, so it
has no positional effect.  The trailing bare expression `request.cookies;` on
line 195 is a no-op.  The steps are named individually (in source order:
request, response, body, authenticated user, path params, query params,
cookie) and composed in `resolveArgs`. -/
def requestStep (md : MethodMetadata) (st : List JsValue) : List JsValue :=
  match md.requestMetaData with
  | some i => setArg st i .requestRef
  | none => st

def responseStep (md : MethodMetadata) (st : List JsValue) : List JsValue :=
  match md.responseMetaData with
  | some i => setArg st i .responseRef
  | none => st

def bodyStep (md : MethodMetadata) (req : JsRequest) (st : List JsValue) : StepResult :=
  match md.bodyMetaData with
  | none => (st, none)
  | some b =>
    match b.validatePipe.pipe req.body with
    | .error e => (st, some e)
    | .ok v => (setArg st b.paramIndex v, none)

def authStep (md : MethodMetadata) (req : JsRequest) (st : List JsValue) : List JsValue :=
  match md.authenticationMetaData with
  | some i => setArg st i req.user
  | none => st

def pathStep (md : MethodMetadata) (req : JsRequest) (st : List JsValue) : StepResult :=
  match md.pathParamArgumentMetadata with
  | none => (st, none)
  | some l => resolveParamList (lookupStr req.params) l st

def queryStep (md : MethodMetadata) (req : JsRequest) (st : List JsValue) : StepResult :=
  match md.queryParamArgumentMetadata with
  | none => (st, none)
  | some l => resolveParamList (lookupStr req.query) l st

def resolveArgs (md : MethodMetadata) (req : JsRequest) (st0 : List JsValue) : StepResult :=
  andThenStep (bodyStep md req (responseStep md (requestStep md st0)))
    (fun st3 =>
      andThenStep (pathStep md req (authStep md req st3))
        (fun st5 =>
          andThenStep (queryStep md req st5)
            (fun st6 => cookieStep md req st6)))

/-- Model of `new Array(descriptor.value.length)`: every slot reads as `undefined`. -/
def freshArgs (arity : Nat) : List JsValue := List.replicate arity JsValue.undef

/-- The source allocates `resolvedArguments` once per method (line 141) and
the returned closure mutates it on every invocation; successive invocations
therefore thread the array state.  Returns the per-invocation results in
order. -/
def runInvocations (md : MethodMetadata) : List JsRequest → List JsValue → List StepResult
  | [], _ => []
  | r :: rest, st =>
    let out := resolveArgs md r st
    out :: runInvocations md rest out.1

/-- Apply a list of index/value writes to an argument array, in order. -/
def applyWrites (ws : List (Nat × JsValue)) (st : List JsValue) : List JsValue :=
  ws.foldl (fun s w => setArg s w.1 w.2) st

/-- The value of the last write at index `i`, if any. -/
def lastWriteAt : List (Nat × JsValue) → Nat → Option JsValue
  | [], _ => none
  | w :: ws, i =>
    match lastWriteAt ws i with
    | some v => some v
    | none => if w.1 = i then some w.2 else none

/-- Accumulated writes plus the error thrown so far: the state-free mirror of
`StepResult` used to factor the resolver through `applyWrites`. -/
abbrev PureResult : Type := List (Nat × JsValue) × Option JsError

/-- The writes of an optional positional binding. -/
def optWrite (o : Option Nat) (v : JsValue) : List (Nat × JsValue) :=
  match o with
  | some i => [(i, v)]
  | none => []

/-- State-free mirror of `resolveParamList`, accumulating writes. -/
def pureParamScan (lookup : String → Option String) :
    List ParamMetadata → List (Nat × JsValue) → PureResult
  | [], ws => (ws, none)
  | b :: rest, ws =>
    match lookup b.value with
    | none => (ws, some (.helper 400 "Bad Request"))
    | some p =>
      match b.validatePipe.pipe (.strV p) with
      | .error e => (ws, some e)
      | .ok v => pureParamScan lookup rest (ws ++ [(b.paramIndex, v)])

/-- State-free mirror of `cookieFallbackScan`. -/
def pureCookieScan (cm : CookieMetadata) (bodyIdx : Nat) :
    List (List Char) → List (Nat × JsValue) → PureResult
  | [], ws => (ws, none)
  | c :: rest, ws =>
    let parts := splitEq c []
    let key := String.mk (parts.getD 0 [])
    let vl : JsValue := match parts.get? 1 with
      | some v => .strV (String.mk v)
      | none => .undef
    if key = cm.value then
      match cm.validatePipe.pipe vl with
      | .error e => (ws, some e)
      | .ok v => pureCookieScan cm bodyIdx rest (ws ++ [(bodyIdx, v)])
    else pureCookieScan cm bodyIdx rest ws

/-- State-free mirror of `cookieStep`; the `=== undefined` check reads the
last write at the Body binding's index (the body step has always written that
index by the time the check runs). -/
def pureCookieStep (md : MethodMetadata) (req : JsRequest) (ws : List (Nat × JsValue)) :
    PureResult :=
  match md.cookieMetaData with
  | none => (ws, none)
  | some cm =>
    match req.cookies with
    | some jar =>
      match md.bodyMetaData with
      | none => (ws, some (.genericError "TypeError"))
      | some b =>
        let raw : JsValue := match lookupStr jar cm.value with
          | some v => .strV v
          | none => .undef
        match cm.validatePipe.pipe raw with
        | .error e => (ws, some e)
        | .ok v => (ws ++ [(b.paramIndex, v)], none)
    | none =>
      if headerCookieTruthy req then
        match md.bodyMetaData with
        | none => (ws, some (.genericError "TypeError"))
        | some b =>
          match pureCookieScan cm b.paramIndex
              (splitSemiSpace (req.headersCookie.getD "").toList []) ws with
          | (ws2, some e) => (ws2, some e)
          | (ws2, none) =>
            match (lastWriteAt ws2 b.paramIndex).getD .undef with
            | .undef => (ws2, some (.helper 400 "Bad Request"))
            | _ => (ws2, none)
      else (ws, none)

/-- Sequence two pure resolver stages. -/
def pureAndThen (r : PureResult) (f : List (Nat × JsValue) → PureResult) : PureResult :=
  match r with
  | (ws, some e) => (ws, some e)
  | (ws, none) => f ws

/-- State-free mirror of `bodyStep`. -/
def pureBodyStep (md : MethodMetadata) (req : JsRequest) (ws : List (Nat × JsValue)) :
    PureResult :=
  match md.bodyMetaData with
  | none => (ws, none)
  | some b =>
    match b.validatePipe.pipe req.body with
    | .error e => (ws, some e)
    | .ok v => (ws ++ [(b.paramIndex, v)], none)

/-- State-free mirror of `pathStep`. -/
def purePathStep (md : MethodMetadata) (req : JsRequest) (ws : List (Nat × JsValue)) :
    PureResult :=
  match md.pathParamArgumentMetadata with
  | none => (ws, none)
  | some l => pureParamScan (lookupStr req.params) l ws

/-- State-free mirror of `queryStep`. -/
def pureQueryStep (md : MethodMetadata) (req : JsRequest) (ws : List (Nat × JsValue)) :
    PureResult :=
  match md.queryParamArgumentMetadata with
  | none => (ws, none)
  | some l => pureParamScan (lookupStr req.query) l ws

/-- State-free mirror of `resolveArgs`: all the writes the invocation performs
(in order) and the error it throws, as a function of the metadata and the
request only. -/
def pureResolveArgs (md : MethodMetadata) (req : JsRequest) : PureResult :=
  pureAndThen
    (pureBodyStep md req
      (optWrite md.requestMetaData .requestRef ++ optWrite md.responseMetaData .responseRef))
    (fun w3 =>
      pureAndThen (purePathStep md req (w3 ++ optWrite md.authenticationMetaData req.user))
        (fun w5 =>
          pureAndThen (pureQueryStep md req w5)
            (fun w6 => pureCookieStep md req w6)))

/-- The indices the resolver can write: the Request/Response/Body/
AuthenticatedUser binding positions and every PathParam/QueryParam binding
position.  (A Cookie binding's own position is deliberately absent: the source
writes cookie values at the Body binding's position.) -/
def writableIdx (md : MethodMetadata) (i : Nat) : Prop :=
  md.requestMetaData = some i ∨
  md.responseMetaData = some i ∨
  (∃ b, md.bodyMetaData = some b ∧ b.paramIndex = i) ∨
  md.authenticationMetaData = some i ∨
  (∃ l p, md.pathParamArgumentMetadata = some l ∧ p ∈ l ∧ p.paramIndex = i) ∨
  (∃ l p, md.queryParamArgumentMetadata = some l ∧ p ∈ l ∧ p.paramIndex = i)

theorem applyWrites_nil (st : List JsValue) : applyWrites [] st = st := rfl

theorem applyWrites_cons (w : Nat × JsValue) (ws : List (Nat × JsValue)) (st : List JsValue) :
    applyWrites (w :: ws) st = applyWrites ws (setArg st w.1 w.2) := rfl

theorem applyWrites_append (ws ws' : List (Nat × JsValue)) (st : List JsValue) :
    applyWrites (ws ++ ws') st = applyWrites ws' (applyWrites ws st) :=
  List.foldl_append _ _ _ _

theorem length_applyWrites (ws : List (Nat × JsValue)) (st : List JsValue) :
    (applyWrites ws st).length = st.length := by
  induction ws generalizing st with
  | nil => rfl
  | cons w ws ih => rw [applyWrites_cons, ih]; exact List.length_set st w.1 w.2

theorem lastWriteAt_append (ws ws' : List (Nat × JsValue)) (i : Nat) :
    lastWriteAt (ws ++ ws') i =
      match lastWriteAt ws' i with
      | some v => some v
      | none => lastWriteAt ws i := by
  induction ws with
  | nil =>
    simp only [List.nil_append]
    cases lastWriteAt ws' i <;> rfl
  | cons w ws ih =>
    show (match lastWriteAt (ws ++ ws') i with
          | some v => some v
          | none => if w.1 = i then some w.2 else none) =
         (match lastWriteAt ws' i with
          | some v => some v
          | none =>
            match lastWriteAt ws i with
            | some v => some v
            | none => if w.1 = i then some w.2 else none)
    rw [ih]
    cases lastWriteAt ws' i <;> cases lastWriteAt ws i <;> rfl

theorem getElem?_set_full (st : List JsValue) (j i : Nat) (v : JsValue) :
    (st.set j v)[i]? = if j = i ∧ i < st.length then some v else st[i]? := by
  by_cases hj : j = i
  · subst hj
    by_cases hl : j < st.length
    · simp [hl, List.getElem?_set_eq_of_lt, hl]
    · rw [List.set_eq_of_length_le (Nat.le_of_not_lt hl)]
      simp [hl]
  · simp [List.getElem?_set_ne hj, hj]

theorem applyWrites_getElem? (ws : List (Nat × JsValue)) (st : List JsValue) (i : Nat) :
    (applyWrites ws st)[i]? =
      match lastWriteAt ws i with
      | some v => if i < st.length then some v else none
      | none => st[i]? := by
  induction ws generalizing st with
  | nil => rfl
  | cons w ws ih =>
    rw [applyWrites_cons, ih]
    show (match lastWriteAt ws i with
          | some v => if i < (setArg st w.1 w.2).length then some v else none
          | none => (setArg st w.1 w.2)[i]?) =
         (match (match lastWriteAt ws i with
                 | some v => some v
                 | none => if w.1 = i then some w.2 else none) with
          | some v => if i < st.length then some v else none
          | none => st[i]?)
    have hlen : (setArg st w.1 w.2).length = st.length := List.length_set st w.1 w.2
    cases lastWriteAt ws i with
    | some v => simp [hlen]
    | none =>
      show (setArg st w.1 w.2)[i]? = _
      rw [show setArg st w.1 w.2 = st.set w.1 w.2 from rfl, getElem?_set_full]
      by_cases hw : w.1 = i
      · subst hw
        by_cases hl : w.1 < st.length <;> simp [hl]
        · exact Nat.le_of_not_lt hl
      · simp [hw]

theorem lastWriteAt_none_of_not_mem (ws : List (Nat × JsValue)) (i : Nat)
    (h : ∀ v, (i, v) ∉ ws) : lastWriteAt ws i = none := by
  induction ws with
  | nil => rfl
  | cons w ws ih =>
    obtain ⟨a, b⟩ := w
    have hrec : lastWriteAt ws i = none := ih (fun v hv => h v (List.mem_cons_of_mem _ hv))
    show (match lastWriteAt ws i with
          | some v => some v
          | none => if a = i then some b else none) = none
    rw [hrec]
    by_cases hw : a = i
    · subst hw
      exact absurd (List.mem_cons_self (a, b) ws) (h b)
    · simp [hw]

theorem lastWriteAt_isSome_of_mem (ws : List (Nat × JsValue)) (i : Nat) (v : JsValue)
    (h : (i, v) ∈ ws) : lastWriteAt ws i ≠ none := by
  induction ws with
  | nil => cases h
  | cons w ws ih =>
    show (match lastWriteAt ws i with
          | some v => some v
          | none => if w.1 = i then some w.2 else none) ≠ none
    rcases List.mem_cons.mp h with h1 | h2
    · cases lastWriteAt ws i with
      | some u => simp
      | none => subst h1; simp
    · have := ih h2
      cases hrec : lastWriteAt ws i with
      | some u => simp
      | none => exact absurd hrec this

theorem lastWriteAt_eq_some_of_mem_distinct (ws : List (Nat × JsValue)) (i : Nat) (v : JsValue)
    (hd : ws.Pairwise (fun a b => a.1 ≠ b.1)) (h : (i, v) ∈ ws) :
    lastWriteAt ws i = some v := by
  induction ws with
  | nil => cases h
  | cons w ws ih =>
    have hd' := (List.pairwise_cons.mp hd).2
    have hw := (List.pairwise_cons.mp hd).1
    show (match lastWriteAt ws i with
          | some v => some v
          | none => if w.1 = i then some w.2 else none) = some v
    rcases List.mem_cons.mp h with h1 | h2
    · have hw2 : w = (i, v) := h1.symm
      subst hw2
      have hnone : lastWriteAt ws i = none := by
        apply lastWriteAt_none_of_not_mem
        intro u hu
        exact absurd rfl (hw (i, u) hu)
      rw [hnone]
      simp
    · rw [ih hd' h2]

theorem setArg_eq_applyWrites_snoc (ws : List (Nat × JsValue)) (st : List JsValue)
    (i : Nat) (v : JsValue) :
    setArg (applyWrites ws st) i v = applyWrites (ws ++ [(i, v)]) st := by
  rw [applyWrites_append]; rfl

theorem resolveParamList_bridge (lookup : String → Option String) (l : List ParamMetadata)
    (ws : List (Nat × JsValue)) (st : List JsValue) :
    resolveParamList lookup l (applyWrites ws st) =
      (applyWrites (pureParamScan lookup l ws).1 st, (pureParamScan lookup l ws).2) := by
  induction l generalizing ws with
  | nil => rfl
  | cons b rest ih =>
    simp only [resolveParamList, pureParamScan]
    split
    · rfl
    · split
      · rfl
      · rw [setArg_eq_applyWrites_snoc, ih]

theorem cookieFallbackScan_bridge (cm : CookieMetadata) (bodyIdx : Nat)
    (pairs : List (List Char)) (ws : List (Nat × JsValue)) (st : List JsValue) :
    cookieFallbackScan cm bodyIdx pairs (applyWrites ws st) =
      (applyWrites (pureCookieScan cm bodyIdx pairs ws).1 st,
       (pureCookieScan cm bodyIdx pairs ws).2) := by
  induction pairs generalizing ws with
  | nil => rfl
  | cons c rest ih =>
    simp only [cookieFallbackScan, pureCookieScan]
    split
    · split
      · rfl
      · rw [setArg_eq_applyWrites_snoc, ih]
    · exact ih ws

theorem pureParamScan_extend (lookup : String → Option String) (l : List ParamMetadata)
    (ws : List (Nat × JsValue)) :
    ∃ ext, (pureParamScan lookup l ws).1 = ws ++ ext := by
  induction l generalizing ws with
  | nil => exact ⟨[], (List.append_nil ws).symm⟩
  | cons b rest ih =>
    simp only [pureParamScan]
    split
    · exact ⟨[], (List.append_nil ws).symm⟩
    · split
      · exact ⟨[], (List.append_nil ws).symm⟩
      · rename_i p hp v hv
        obtain ⟨ext, hext⟩ := ih (ws ++ [(b.paramIndex, v)])
        exact ⟨[(b.paramIndex, v)] ++ ext, by rw [hext, List.append_assoc]⟩

theorem pureCookieScan_extend (cm : CookieMetadata) (bodyIdx : Nat)
    (pairs : List (List Char)) (ws : List (Nat × JsValue)) :
    ∃ ext, (pureCookieScan cm bodyIdx pairs ws).1 = ws ++ ext := by
  induction pairs generalizing ws with
  | nil => exact ⟨[], (List.append_nil ws).symm⟩
  | cons c rest ih =>
    simp only [pureCookieScan]
    split
    · split
      · exact ⟨[], (List.append_nil ws).symm⟩
      · rename_i v hv
        obtain ⟨ext, hext⟩ := ih (ws ++ [(bodyIdx, v)])
        exact ⟨[(bodyIdx, v)] ++ ext, by rw [hext, List.append_assoc]⟩
    · exact ih ws

theorem lastWriteAt_ne_none_append (ws ext : List (Nat × JsValue)) (i : Nat)
    (h : lastWriteAt ws i ≠ none) : lastWriteAt (ws ++ ext) i ≠ none := by
  rw [lastWriteAt_append]
  cases lastWriteAt ext i with
  | some v => simp
  | none => exact h

theorem cookieStep_bridge (md : MethodMetadata) (req : JsRequest)
    (ws : List (Nat × JsValue)) (st : List JsValue)
    (hb : ∀ b, md.bodyMetaData = some b →
      b.paramIndex < st.length ∧ lastWriteAt ws b.paramIndex ≠ none) :
    cookieStep md req (applyWrites ws st) =
      (applyWrites (pureCookieStep md req ws).1 st, (pureCookieStep md req ws).2) := by
  simp only [cookieStep, pureCookieStep]
  split
  · rfl
  · rename_i cm hcm
    split
    · rename_i jar hjar
      split
      · rfl
      · rename_i b hbody
        split
        · rfl
        · rw [setArg_eq_applyWrites_snoc]
    · split
      · split
        · rfl
        · rename_i b hbody
          rw [cookieFallbackScan_bridge]
          rcases hscan : pureCookieScan cm b.paramIndex
              (splitSemiSpace (req.headersCookie.getD "").toList []) ws with ⟨ws2, e2⟩
          obtain ⟨ext, hext⟩ := pureCookieScan_extend cm b.paramIndex
              (splitSemiSpace (req.headersCookie.getD "").toList []) ws
          rw [hscan] at hext
          cases e2 with
          | some e => rfl
          | none =>
            have hlt : b.paramIndex < st.length := (hb b hbody).1
            have hext2 : ws2 = ws ++ ext := hext
            have hlw : lastWriteAt ws2 b.paramIndex ≠ none := by
              rw [hext2]
              exact lastWriteAt_ne_none_append ws ext b.paramIndex (hb b hbody).2
            cases hv : lastWriteAt ws2 b.paramIndex with
            | none => exact absurd hv hlw
            | some v =>
              have hval : (applyWrites ws2 st).getD b.paramIndex .undef = v := by
                rw [List.getD_eq_getElem?_getD, applyWrites_getElem?, hv]
                simp [hlt]
              show (match (applyWrites ws2 st).getD b.paramIndex JsValue.undef with
                    | JsValue.undef =>
                      (applyWrites ws2 st, some (JsError.helper 400 "Bad Request"))
                    | _ => (applyWrites ws2 st, none)) =
                  (applyWrites
                    (match (lastWriteAt ws2 b.paramIndex).getD JsValue.undef with
                      | JsValue.undef => (ws2, some (JsError.helper 400 "Bad Request"))
                      | _ => (ws2, (none : Option JsError))).1 st,
                   (match (lastWriteAt ws2 b.paramIndex).getD JsValue.undef with
                      | JsValue.undef => (ws2, some (JsError.helper 400 "Bad Request"))
                      | _ => (ws2, (none : Option JsError))).2)
              rw [hval, hv]
              cases v <;> rfl
      · rfl

theorem requestStep_bridge (md : MethodMetadata) (ws : List (Nat × JsValue)) (st : List JsValue) :
    requestStep md (applyWrites ws st) =
      applyWrites (ws ++ optWrite md.requestMetaData .requestRef) st := by
  cases h : md.requestMetaData with
  | none => simp [requestStep, optWrite, h]
  | some i => simp [requestStep, optWrite, h, ← setArg_eq_applyWrites_snoc]

theorem responseStep_bridge (md : MethodMetadata) (ws : List (Nat × JsValue)) (st : List JsValue) :
    responseStep md (applyWrites ws st) =
      applyWrites (ws ++ optWrite md.responseMetaData .responseRef) st := by
  cases h : md.responseMetaData with
  | none => simp [responseStep, optWrite, h]
  | some i => simp [responseStep, optWrite, h, ← setArg_eq_applyWrites_snoc]

theorem authStep_bridge (md : MethodMetadata) (req : JsRequest) (ws : List (Nat × JsValue))
    (st : List JsValue) :
    authStep md req (applyWrites ws st) =
      applyWrites (ws ++ optWrite md.authenticationMetaData req.user) st := by
  cases h : md.authenticationMetaData with
  | none => simp [authStep, optWrite, h]
  | some i => simp [authStep, optWrite, h, ← setArg_eq_applyWrites_snoc]

theorem bodyStep_bridge (md : MethodMetadata) (req : JsRequest) (ws : List (Nat × JsValue))
    (st : List JsValue) :
    bodyStep md req (applyWrites ws st) =
      (applyWrites (pureBodyStep md req ws).1 st, (pureBodyStep md req ws).2) := by
  simp only [bodyStep, pureBodyStep]
  split
  · rfl
  · split
    · rfl
    · rw [setArg_eq_applyWrites_snoc]

theorem pathStep_bridge (md : MethodMetadata) (req : JsRequest) (ws : List (Nat × JsValue))
    (st : List JsValue) :
    pathStep md req (applyWrites ws st) =
      (applyWrites (purePathStep md req ws).1 st, (purePathStep md req ws).2) := by
  simp only [pathStep, purePathStep]
  split
  · rfl
  · exact resolveParamList_bridge _ _ ws st

theorem queryStep_bridge (md : MethodMetadata) (req : JsRequest) (ws : List (Nat × JsValue))
    (st : List JsValue) :
    queryStep md req (applyWrites ws st) =
      (applyWrites (pureQueryStep md req ws).1 st, (pureQueryStep md req ws).2) := by
  simp only [queryStep, pureQueryStep]
  split
  · rfl
  · exact resolveParamList_bridge _ _ ws st

theorem andThen_bridge (st : List JsValue) (S : StepResult) (G : PureResult)
    (f : List JsValue → StepResult) (g : List (Nat × JsValue) → PureResult)
    (hS : S = (applyWrites G.1 st, G.2))
    (hf : G.2 = none → f (applyWrites G.1 st) = (applyWrites (g G.1).1 st, (g G.1).2)) :
    andThenStep S f = (applyWrites (pureAndThen G g).1 st, (pureAndThen G g).2) := by
  subst hS
  rcases G with ⟨ws, e⟩
  cases e with
  | some e => rfl
  | none => exact hf rfl

theorem lastWriteAt_snoc_self (ws : List (Nat × JsValue)) (i : Nat) (v : JsValue) :
    lastWriteAt (ws ++ [(i, v)]) i = some v := by
  rw [lastWriteAt_append]
  simp [lastWriteAt]

theorem bodyWrite_present (md : MethodMetadata) (req : JsRequest)
    (ws : List (Nat × JsValue)) (b : BodyMetadata) (hbmd : md.bodyMetaData = some b)
    (hnone : (pureBodyStep md req ws).2 = none) :
    lastWriteAt (pureBodyStep md req ws).1 b.paramIndex ≠ none := by
  simp only [pureBodyStep, hbmd] at hnone ⊢
  cases hp : b.validatePipe.pipe req.body with
  | error e => simp [hp] at hnone
  | ok v =>
    show lastWriteAt (ws ++ [(b.paramIndex, v)]) b.paramIndex ≠ none
    rw [lastWriteAt_snoc_self]
    simp

theorem purePathStep_extend (md : MethodMetadata) (req : JsRequest)
    (ws : List (Nat × JsValue)) : ∃ ext, (purePathStep md req ws).1 = ws ++ ext := by
  simp only [purePathStep]
  split
  · exact ⟨[], (List.append_nil ws).symm⟩
  · exact pureParamScan_extend _ _ ws

theorem pureQueryStep_extend (md : MethodMetadata) (req : JsRequest)
    (ws : List (Nat × JsValue)) : ∃ ext, (pureQueryStep md req ws).1 = ws ++ ext := by
  simp only [pureQueryStep]
  split
  · exact ⟨[], (List.append_nil ws).symm⟩
  · exact pureParamScan_extend _ _ ws

theorem resolveArgs_bridge (md : MethodMetadata) (req : JsRequest) (st : List JsValue)
    (hb : ∀ b, md.bodyMetaData = some b → b.paramIndex < st.length) :
    resolveArgs md req st =
      (applyWrites (pureResolveArgs md req).1 st, (pureResolveArgs md req).2) := by
  unfold resolveArgs pureResolveArgs
  refine andThen_bridge st _ _ _ _ ?_ ?_
  · have hreq : requestStep md st =
        applyWrites (optWrite md.requestMetaData .requestRef) st :=
      requestStep_bridge md [] st
    rw [hreq, responseStep_bridge, bodyStep_bridge]
  · intro hnone1
    have hauth := authStep_bridge md req (pureBodyStep md req
      (optWrite md.requestMetaData .requestRef ++
        optWrite md.responseMetaData .responseRef)).1 st
    show andThenStep (pathStep md req (authStep md req _)) _ = _
    rw [hauth]
    refine andThen_bridge st _ _ _ _ ?_ ?_
    · exact pathStep_bridge md req _ st
    · intro hnone2
      refine andThen_bridge st _ _ _ _ ?_ ?_
      · exact queryStep_bridge md req _ st
      · intro hnone3
        apply cookieStep_bridge
        intro b hbmd
        refine ⟨hb b hbmd, ?_⟩
        have h3 : lastWriteAt (pureBodyStep md req
            (optWrite md.requestMetaData .requestRef ++
              optWrite md.responseMetaData .responseRef)).1 b.paramIndex ≠ none :=
          bodyWrite_present md req _ b hbmd hnone1
        have h4 : lastWriteAt ((pureBodyStep md req
            (optWrite md.requestMetaData .requestRef ++
              optWrite md.responseMetaData .responseRef)).1 ++
            optWrite md.authenticationMetaData req.user) b.paramIndex ≠ none :=
          lastWriteAt_ne_none_append _ _ _ h3
        obtain ⟨ext5, hext5⟩ := purePathStep_extend md req _
        obtain ⟨ext6, hext6⟩ := pureQueryStep_extend md req _
        rw [hext6, hext5]
        rw [List.append_assoc]
        exact lastWriteAt_ne_none_append _ _ _ h4

theorem lastWriteAt_mem (ws : List (Nat × JsValue)) (i : Nat) (v : JsValue)
    (h : lastWriteAt ws i = some v) : (i, v) ∈ ws := by
  induction ws with
  | nil => cases h
  | cons w ws ih =>
    revert h
    show (match lastWriteAt ws i with
          | some v => some v
          | none => if w.1 = i then some w.2 else none) = some v → _
    cases hrec : lastWriteAt ws i with
    | some u =>
      intro h
      cases h
      exact List.mem_cons_of_mem w (ih hrec)
    | none =>
      intro h
      by_cases hw : w.1 = i
      · rw [if_pos hw] at h
        cases h
        obtain ⟨a, b⟩ := w
        simp only at hw
        subst hw
        exact List.mem_cons_self _ _
      · rw [if_neg hw] at h
        cases h

theorem optWrite_mem (o : Option Nat) (v : JsValue) (w : Nat × JsValue)
    (h : w ∈ optWrite o v) : o = some w.1 := by
  cases o with
  | none => cases h
  | some i =>
    rcases List.mem_singleton.mp h with h1
    rw [h1]

theorem pureParamScan_mem (lookup : String → Option String) (l : List ParamMetadata)
    (ws : List (Nat × JsValue)) (w : Nat × JsValue)
    (h : w ∈ (pureParamScan lookup l ws).1) :
    w ∈ ws ∨ ∃ p ∈ l, w.1 = p.paramIndex := by
  induction l generalizing ws with
  | nil => exact Or.inl h
  | cons b rest ih =>
    revert h
    simp only [pureParamScan]
    split
    · exact fun h => Or.inl h
    · split
      · exact fun h => Or.inl h
      · intro h
        rcases ih _ h with h1 | ⟨p, hp, hpi⟩
        · rcases List.mem_append.mp h1 with h2 | h3
          · exact Or.inl h2
          · rcases List.mem_singleton.mp h3 with h4
            exact Or.inr ⟨b, List.mem_cons_self b rest, by rw [h4]⟩
        · exact Or.inr ⟨p, List.mem_cons_of_mem b hp, hpi⟩

theorem pureCookieScan_mem (cm : CookieMetadata) (bodyIdx : Nat)
    (pairs : List (List Char)) (ws : List (Nat × JsValue)) (w : Nat × JsValue)
    (h : w ∈ (pureCookieScan cm bodyIdx pairs ws).1) :
    w ∈ ws ∨ w.1 = bodyIdx := by
  induction pairs generalizing ws with
  | nil => exact Or.inl h
  | cons c rest ih =>
    revert h
    simp only [pureCookieScan]
    split
    · split
      · exact fun h => Or.inl h
      · intro h
        rcases ih _ h with h1 | h2
        · rcases List.mem_append.mp h1 with h2 | h3
          · exact Or.inl h2
          · rcases List.mem_singleton.mp h3 with h4
            exact Or.inr (by rw [h4])
        · exact Or.inr h2
    · exact fun h => ih _ h

theorem pureResolveArgs_writes_writable (md : MethodMetadata) (req : JsRequest)
    (w : Nat × JsValue) (h : w ∈ (pureResolveArgs md req).1) : writableIdx md w.1 := by
  have base : ∀ u : Nat × JsValue,
      u ∈ optWrite md.requestMetaData .requestRef ++
          optWrite md.responseMetaData .responseRef → writableIdx md u.1 := by
    intro u hu
    rcases List.mem_append.mp hu with h1 | h2
    · exact Or.inl (optWrite_mem _ _ _ h1)
    · exact Or.inr (Or.inl (optWrite_mem _ _ _ h2))
  have hbodymem : ∀ u : Nat × JsValue,
      u ∈ (pureBodyStep md req (optWrite md.requestMetaData .requestRef ++
          optWrite md.responseMetaData .responseRef)).1 → writableIdx md u.1 := by
    intro u hu
    revert hu
    simp only [pureBodyStep]
    split
    · exact fun hu => base u hu
    · rename_i b hbmd
      split
      · exact fun hu => base u hu
      · intro hu
        rcases List.mem_append.mp hu with h1 | h2
        · exact base u h1
        · rcases List.mem_singleton.mp h2 with h3
          exact Or.inr (Or.inr (Or.inl ⟨b, hbmd, by rw [h3]⟩))
  revert h
  unfold pureResolveArgs
  rcases hB : pureBodyStep md req (optWrite md.requestMetaData .requestRef ++
      optWrite md.responseMetaData .responseRef) with ⟨w3, e3⟩
  have hw3 : ∀ u : Nat × JsValue, u ∈ w3 → writableIdx md u.1 := by
    intro u hu
    exact hbodymem u (by rw [hB]; exact hu)
  cases e3 with
  | some e => exact fun h => hw3 w h
  | none =>
    show w ∈ (pureAndThen (purePathStep md req (w3 ++ optWrite md.authenticationMetaData
        req.user)) _).1 → _
    have hw4 : ∀ u : Nat × JsValue,
        u ∈ w3 ++ optWrite md.authenticationMetaData req.user → writableIdx md u.1 := by
      intro u hu
      rcases List.mem_append.mp hu with h1 | h2
      · exact hw3 u h1
      · exact Or.inr (Or.inr (Or.inr (Or.inl (optWrite_mem _ _ _ h2))))
    rcases hP : purePathStep md req (w3 ++ optWrite md.authenticationMetaData req.user)
        with ⟨w5, e5⟩
    have hw5 : ∀ u : Nat × JsValue, u ∈ w5 → writableIdx md u.1 := by
      intro u hu
      have hu5 : u ∈ (purePathStep md req (w3 ++ optWrite md.authenticationMetaData
          req.user)).1 := by rw [hP]; exact hu
      revert hu5
      simp only [purePathStep]
      split
      · exact fun hu5 => hw4 u hu5
      · rename_i l hl
        intro hu5
        rcases pureParamScan_mem _ _ _ _ hu5 with h1 | ⟨p, hp, hpi⟩
        · exact hw4 u h1
        · exact Or.inr (Or.inr (Or.inr (Or.inr (Or.inl ⟨l, p, hl, hp, hpi.symm⟩))))
    cases e5 with
    | some e => exact fun h => hw5 w h
    | none =>
      show w ∈ (pureAndThen (pureQueryStep md req w5) _).1 → _
      rcases hQ : pureQueryStep md req w5 with ⟨w6, e6⟩
      have hw6 : ∀ u : Nat × JsValue, u ∈ w6 → writableIdx md u.1 := by
        intro u hu
        have hu6 : u ∈ (pureQueryStep md req w5).1 := by rw [hQ]; exact hu
        revert hu6
        simp only [pureQueryStep]
        split
        · exact fun hu6 => hw5 u hu6
        · rename_i l hl
          intro hu6
          rcases pureParamScan_mem _ _ _ _ hu6 with h1 | ⟨p, hp, hpi⟩
          · exact hw5 u h1
          · exact Or.inr (Or.inr (Or.inr (Or.inr (Or.inr ⟨l, p, hl, hp, hpi.symm⟩))))
      cases e6 with
      | some e => exact fun h => hw6 w h
      | none =>
        show w ∈ (pureCookieStep md req w6).1 → _
        intro h
        revert h
        simp only [pureCookieStep]
        split
        · exact fun h => hw6 w h
        · rename_i cm hcm
          split
          · split
            · exact fun h => hw6 w h
            · rename_i b hbmd
              split
              · exact fun h => hw6 w h
              · intro h
                rcases List.mem_append.mp h with h1 | h2
                · exact hw6 w h1
                · rcases List.mem_singleton.mp h2 with h3
                  exact Or.inr (Or.inr (Or.inl ⟨b, hbmd, by rw [h3]⟩))
          · split
            · split
              · exact fun h => hw6 w h
              · rename_i b hbmd
                rcases hS : pureCookieScan cm b.paramIndex
                    (splitSemiSpace (req.headersCookie.getD "").toList []) w6 with ⟨w7, e7⟩
                have hw7 : ∀ u : Nat × JsValue, u ∈ w7 → writableIdx md u.1 := by
                  intro u hu
                  have hu7 : u ∈ (pureCookieScan cm b.paramIndex
                      (splitSemiSpace (req.headersCookie.getD "").toList []) w6).1 := by
                    rw [hS]; exact hu
                  rcases pureCookieScan_mem _ _ _ _ _ hu7 with h1 | h2
                  · exact hw6 u h1
                  · exact Or.inr (Or.inr (Or.inl ⟨b, hbmd, h2.symm⟩))
                cases e7 with
                | some e => exact fun h => hw7 w h
                | none =>
                  intro h
                  have h2 : w ∈ w7 := by
                    revert h
                    show w ∈ (match (lastWriteAt w7 b.paramIndex).getD JsValue.undef with
                        | JsValue.undef => (w7, some (JsError.helper 400 "Bad Request"))
                        | _ => (w7, (none : Option JsError))).1 → w ∈ w7
                    cases (lastWriteAt w7 b.paramIndex).getD JsValue.undef <;> exact id
                  exact hw7 w h2
            · exact fun h => hw6 w h

theorem pureAndThen_ok (ws : List (Nat × JsValue)) (g : List (Nat × JsValue) → PureResult) :
    pureAndThen (ws, none) g = g ws := rfl

theorem pureAndThen_err (ws : List (Nat × JsValue)) (e : JsError)
    (g : List (Nat × JsValue) → PureResult) :
    pureAndThen (ws, some e) g = (ws, some e) := rfl

theorem pureBodyStep_extend (md : MethodMetadata) (req : JsRequest)
    (ws : List (Nat × JsValue)) : ∃ ext, (pureBodyStep md req ws).1 = ws ++ ext := by
  simp only [pureBodyStep]
  split
  · exact ⟨[], (List.append_nil ws).symm⟩
  · rename_i b hbmd
    split
    · exact ⟨[], (List.append_nil ws).symm⟩
    · rename_i v hv
      exact ⟨[(b.paramIndex, v)], rfl⟩

theorem pureCookieStep_extend (md : MethodMetadata) (req : JsRequest)
    (ws : List (Nat × JsValue)) : ∃ ext, (pureCookieStep md req ws).1 = ws ++ ext := by
  simp only [pureCookieStep]
  split
  · exact ⟨[], (List.append_nil ws).symm⟩
  · rename_i cm hcm
    split
    · split
      · exact ⟨[], (List.append_nil ws).symm⟩
      · rename_i b hbmd
        split
        · exact ⟨[], (List.append_nil ws).symm⟩
        · rename_i v hv
          exact ⟨[(b.paramIndex, v)], rfl⟩
    · split
      · split
        · exact ⟨[], (List.append_nil ws).symm⟩
        · rename_i b hbmd
          obtain ⟨ext, hext⟩ := pureCookieScan_extend cm b.paramIndex
            (splitSemiSpace (req.headersCookie.getD "").toList []) ws
          rcases hS : pureCookieScan cm b.paramIndex
              (splitSemiSpace (req.headersCookie.getD "").toList []) ws with ⟨ws2, e2⟩
          rw [hS] at hext
          have hext2 : ws2 = ws ++ ext := hext
          cases e2 with
          | some e => exact ⟨ext, hext2⟩
          | none =>
            refine ⟨ext, ?_⟩
            show (match (lastWriteAt ws2 b.paramIndex).getD JsValue.undef with
                | JsValue.undef => (ws2, some (JsError.helper 400 "Bad Request"))
                | _ => (ws2, (none : Option JsError))).1 = ws ++ ext
            cases (lastWriteAt ws2 b.paramIndex).getD JsValue.undef <;> exact hext2
      · exact ⟨[], (List.append_nil ws).symm⟩

theorem pureParamScan_covers (lookup : String → Option String) (l : List ParamMetadata) :
    ∀ ws, (pureParamScan lookup l ws).2 = none →
      ∀ p ∈ l, ∃ v, (p.paramIndex, v) ∈ (pureParamScan lookup l ws).1 := by
  induction l with
  | nil => intro ws hs p hp; cases hp
  | cons b rest ih =>
    intro ws hs p hp
    revert hs
    simp only [pureParamScan]
    split
    · intro hs; exact Option.noConfusion hs
    · split
      · intro hs; exact Option.noConfusion hs
      · rename_i pval hlk v hv
        intro hs
        rcases List.mem_cons.mp hp with h1 | h2
        · subst h1
          obtain ⟨ext, hext⟩ := pureParamScan_extend lookup rest (ws ++ [(p.paramIndex, v)])
          refine ⟨v, ?_⟩
          rw [hext]
          exact List.mem_append.mpr (Or.inl (List.mem_append.mpr
            (Or.inr (List.mem_singleton.mpr rfl))))
        · exact ih _ hs p h2

theorem mem_writes_ne_none (ws : List (Nat × JsValue)) (i : Nat) (v : JsValue)
    (h : (i, v) ∈ ws) : lastWriteAt ws i ≠ none :=
  lastWriteAt_isSome_of_mem ws i v h

theorem pureResolveArgs_success_covers (md : MethodMetadata) (req : JsRequest)
    (hsucc : (pureResolveArgs md req).2 = none) :
    ∀ i, writableIdx md i → lastWriteAt (pureResolveArgs md req).1 i ≠ none := by
  rcases hB : pureBodyStep md req (optWrite md.requestMetaData .requestRef ++
      optWrite md.responseMetaData .responseRef) with ⟨w3, e3⟩
  have hPR1 : pureResolveArgs md req =
      pureAndThen (w3, e3) (fun w3 =>
        pureAndThen (purePathStep md req (w3 ++ optWrite md.authenticationMetaData req.user))
          (fun w5 => pureAndThen (pureQueryStep md req w5)
            (fun w6 => pureCookieStep md req w6))) := by
    rw [← hB]; rfl
  cases e3 with
  | some e =>
    rw [hPR1, pureAndThen_err] at hsucc
    exact Option.noConfusion hsucc
  | none =>
    have hPR2 : pureResolveArgs md req =
        pureAndThen (purePathStep md req (w3 ++ optWrite md.authenticationMetaData req.user))
          (fun w5 => pureAndThen (pureQueryStep md req w5)
            (fun w6 => pureCookieStep md req w6)) := hPR1
    rcases hP : purePathStep md req (w3 ++ optWrite md.authenticationMetaData req.user)
        with ⟨w5, e5⟩
    rw [hP] at hPR2
    cases e5 with
    | some e =>
      rw [hPR2, pureAndThen_err] at hsucc
      exact Option.noConfusion hsucc
    | none =>
      have hPR3 : pureResolveArgs md req =
          pureAndThen (pureQueryStep md req w5) (fun w6 => pureCookieStep md req w6) := hPR2
      rcases hQ : pureQueryStep md req w5 with ⟨w6, e6⟩
      rw [hQ] at hPR3
      cases e6 with
      | some e =>
        rw [hPR3, pureAndThen_err] at hsucc
        exact Option.noConfusion hsucc
      | none =>
        have hPR4 : pureResolveArgs md req = pureCookieStep md req w6 := hPR3
        obtain ⟨extC, hextC⟩ := pureCookieStep_extend md req w6
        obtain ⟨ext6, hext6⟩ := pureQueryStep_extend md req w5
        rw [hQ] at hext6
        have hw6 : w6 = w5 ++ ext6 := hext6
        obtain ⟨ext5, hext5⟩ := purePathStep_extend md req
          (w3 ++ optWrite md.authenticationMetaData req.user)
        rw [hP] at hext5
        have hw5 : w5 = (w3 ++ optWrite md.authenticationMetaData req.user) ++ ext5 := hext5
        obtain ⟨ext3, hext3⟩ := pureBodyStep_extend md req
          (optWrite md.requestMetaData .requestRef ++
            optWrite md.responseMetaData .responseRef)
        rw [hB] at hext3
        have hw3 : w3 = (optWrite md.requestMetaData .requestRef ++
            optWrite md.responseMetaData .responseRef) ++ ext3 := hext3
        intro i hwi
        rw [hPR4, hextC]
        apply lastWriteAt_ne_none_append
        have hmem_up : ∀ v : JsValue, (i, v) ∈ w3 → lastWriteAt w6 i ≠ none := by
          intro v hv
          apply mem_writes_ne_none _ _ v
          rw [hw6, hw5]
          exact List.mem_append.mpr (Or.inl (List.mem_append.mpr (Or.inl
            (List.mem_append.mpr (Or.inl hv)))))
        rcases hwi with hr | hresp | ⟨b, hbmd, hbi⟩ | hauth | ⟨l, p, hl, hpl, hpi⟩ |
          ⟨l, p, hl, hpl, hpi⟩
        · apply hmem_up .requestRef
          rw [hw3]
          refine List.mem_append.mpr (Or.inl (List.mem_append.mpr (Or.inl ?_)))
          rw [hr]
          exact List.mem_singleton.mpr rfl
        · apply hmem_up .responseRef
          rw [hw3]
          refine List.mem_append.mpr (Or.inl (List.mem_append.mpr (Or.inr ?_)))
          rw [hresp]
          exact List.mem_singleton.mpr rfl
        · -- body binding: the body step wrote at its index
          have hbp : lastWriteAt (pureBodyStep md req
              (optWrite md.requestMetaData .requestRef ++
                optWrite md.responseMetaData .responseRef)).1 b.paramIndex ≠ none :=
            bodyWrite_present md req _ b hbmd (by rw [hB])
          rw [hB] at hbp
          have hbp3 : lastWriteAt w3 b.paramIndex ≠ none := hbp
          rw [← hbi]
          rw [hw6, hw5, List.append_assoc, List.append_assoc]
          exact lastWriteAt_ne_none_append _ _ _ hbp3
        · apply mem_writes_ne_none _ _ req.user
          rw [hw6, hw5]
          refine List.mem_append.mpr (Or.inl (List.mem_append.mpr (Or.inl
            (List.mem_append.mpr (Or.inr ?_)))))
          rw [hauth]
          exact List.mem_singleton.mpr rfl
        · -- path binding: covered by the path scan (success)
          have hps : (purePathStep md req
              (w3 ++ optWrite md.authenticationMetaData req.user)).2 = none := by rw [hP]
          have hscan : (pureParamScan (lookupStr req.params) l
              (w3 ++ optWrite md.authenticationMetaData req.user)).2 = none := by
            rw [← hps]
            simp only [purePathStep, hl]
          obtain ⟨v, hv⟩ := pureParamScan_covers (lookupStr req.params) l _ hscan p hpl
          have hv5 : (p.paramIndex, v) ∈ w5 := by
            have : (pureParamScan (lookupStr req.params) l
                (w3 ++ optWrite md.authenticationMetaData req.user)).1 = w5 := by
              have h := hP
              simp only [purePathStep, hl] at h
              rw [h]
            rw [← this]
            exact hv
          rw [← hpi]
          apply mem_writes_ne_none _ _ v
          rw [hw6]
          exact List.mem_append.mpr (Or.inl hv5)
        · -- query binding: covered by the query scan (success)
          have hqs : (pureQueryStep md req w5).2 = none := by rw [hQ]
          have hscan : (pureParamScan (lookupStr req.query) l w5).2 = none := by
            rw [← hqs]
            simp only [pureQueryStep, hl]
          obtain ⟨v, hv⟩ := pureParamScan_covers (lookupStr req.query) l _ hscan p hpl
          have hv6 : (p.paramIndex, v) ∈ w6 := by
            have h6 : (pureParamScan (lookupStr req.query) l w5).1 = w6 := by
              have h := hQ
              simp only [pureQueryStep, hl] at h
              rw [h]
            rw [← h6]
            exact hv
          rw [← hpi]
          exact mem_writes_ne_none _ _ v hv6

theorem resolveArgs_state_independent (md : MethodMetadata) (req : JsRequest)
    (st st' : List JsValue)
    (hlen : st.length = st'.length)
    (hw : ∀ i, writableIdx md i → i < st.length)
    (ha : ∀ i : Nat, ¬ writableIdx md i → st[i]? = st'[i]?) :
    (resolveArgs md req st).2 = (resolveArgs md req st').2 ∧
    ((resolveArgs md req st).2 = none →
      (resolveArgs md req st).1 = (resolveArgs md req st').1) := by
  have hbS : ∀ b, md.bodyMetaData = some b → b.paramIndex < st.length := fun b hb =>
    hw _ (Or.inr (Or.inr (Or.inl ⟨b, hb, rfl⟩)))
  have hbS' : ∀ b, md.bodyMetaData = some b → b.paramIndex < st'.length := fun b hb =>
    hlen ▸ hbS b hb
  rw [resolveArgs_bridge md req st hbS, resolveArgs_bridge md req st' hbS']
  constructor
  · rfl
  · intro hsucc
    have hsucc2 : (pureResolveArgs md req).2 = none := hsucc
    show applyWrites (pureResolveArgs md req).1 st = applyWrites (pureResolveArgs md req).1 st'
    apply List.ext_getElem?_iff.mpr
    intro i
    rw [applyWrites_getElem?, applyWrites_getElem?]
    cases hlast : lastWriteAt (pureResolveArgs md req).1 i with
    | some v =>
      have hmem := lastWriteAt_mem _ _ _ hlast
      have hwr := pureResolveArgs_writes_writable md req _ hmem
      have h1 : i < st.length := hw i hwr
      have h2 : i < st'.length := hlen ▸ h1
      simp [h1, h2]
    | none =>
      by_cases hwr : writableIdx md i
      · exact absurd hlast (pureResolveArgs_success_covers md req hsucc2 i hwr)
      · exact ha i hwr

theorem resolveArgs_preserves_unwritable (md : MethodMetadata) (req : JsRequest)
    (st : List JsValue) (hb : ∀ b, md.bodyMetaData = some b → b.paramIndex < st.length)
    (i : Nat) (hun : ¬ writableIdx md i) :
    (resolveArgs md req st).1[i]? = st[i]? := by
  rw [resolveArgs_bridge md req st hb]
  show (applyWrites (pureResolveArgs md req).1 st)[i]? = st[i]?
  rw [applyWrites_getElem?]
  cases hlast : lastWriteAt (pureResolveArgs md req).1 i with
  | some v =>
    exact absurd (pureResolveArgs_writes_writable md req _
      (lastWriteAt_mem _ _ _ hlast)) hun
  | none => rfl

theorem resolveArgs_length (md : MethodMetadata) (req : JsRequest) (st : List JsValue)
    (hb : ∀ b, md.bodyMetaData = some b → b.paramIndex < st.length) :
    (resolveArgs md req st).1.length = st.length := by
  rw [resolveArgs_bridge md req st hb]
  exact length_applyWrites _ _

/-- The observable outcome of one invocation: the thrown error, or the
argument list the handler is invoked with. -/
def obsOutcome (r : StepResult) : Except JsError (List JsValue) :=
  match r.2 with
  | some e => .error e
  | none => .ok r.1

theorem runInvocations_obs (md : MethodMetadata) (n : Nat)
    (hw : ∀ i, writableIdx md i → i < n) :
    ∀ (reqs : List JsRequest) (st : List JsValue),
      st.length = n →
      (∀ i : Nat, ¬ writableIdx md i → st[i]? = (freshArgs n)[i]?) →
      (runInvocations md reqs st).map obsOutcome =
        reqs.map (fun r => obsOutcome (resolveArgs md r (freshArgs n))) := by
  intro reqs
  induction reqs with
  | nil => intro st _ _; rfl
  | cons r rest ih =>
    intro st hlen hag
    have hlenf : (freshArgs n).length = n := List.length_replicate _ _
    have hwst : ∀ i, writableIdx md i → i < st.length := fun i h => by
      rw [hlen]; exact hw i h
    have hpur := resolveArgs_state_independent md r st (freshArgs n)
      (by rw [hlen, hlenf]) hwst hag
    have hobs : obsOutcome (resolveArgs md r st) =
        obsOutcome (resolveArgs md r (freshArgs n)) := by
      cases he : (resolveArgs md r (freshArgs n)).2 with
      | some e =>
        have hst2 : (resolveArgs md r st).2 = some e := hpur.1.trans he
        simp only [obsOutcome, hst2, he]
      | none =>
        have hst2 : (resolveArgs md r st).2 = none := hpur.1.trans he
        simp only [obsOutcome, hst2, he]
        exact congrArg Except.ok (hpur.2 hst2)
    have hbS : ∀ b, md.bodyMetaData = some b → b.paramIndex < st.length := fun b hb =>
      hwst _ (Or.inr (Or.inr (Or.inl ⟨b, hb, rfl⟩)))
    show obsOutcome (resolveArgs md r st) ::
        (runInvocations md rest (resolveArgs md r st).1).map obsOutcome = _
    rw [hobs, ih (resolveArgs md r st).1
      (by rw [resolveArgs_length md r st hbS]; exact hlen)
      (fun i hun => by rw [resolveArgs_preserves_unwritable md r st hbS i hun]; exact hag i hun)]
    rfl

/-- A response-terminating action on the Express response object. -/
inductive ResponseBody where
  | ofValue (v : JsValue)
  | messageObject (message : String)
deriving DecidableEq

/-- The observable response actions the adapters and the boundary perform:
`res.status(s).json(body)`, `res.status(s).send()` (empty body), and
`res.status(s).sendFile(path)`. -/
inductive ResponseAction where
  | jsonRes (status : Nat) (body : ResponseBody)
  | emptyRes (status : Nat)
  | sendFileRes (status : Nat) (path : String)
deriving DecidableEq

/-- What a route-level handler wrapper does with one request: either it
performs a response action itself, or it forwards an error to the error
middleware via `next(e)`. -/
inductive AdapterOutcome where
  | respond (a : ResponseAction)
  | forward (e : JsError)
deriving DecidableEq

/-- Model of `Reflect.getMetadata(statusCodeMetadataKey, ...) || 200`: the configured
status, with any falsy value (absent metadata, or the number 0) replaced by
200. -/
def effectiveStatusCode (m : Option Nat) : Nat :=
  match m with
  | some c => if c ≠ 0 then c else 200
  | none => 200

/-- Model of `path.join(views, name)` for ordinary relative view names. -/
def pathJoin (views name : String) : String := views ++ "/" ++ name

/-- The `RestController` per-route handler (lines 104-112 of
`src/controller.ts`): awaits the resolved handler; a truthy return value is
sent as JSON with the effective status, otherwise the response is a 204 with
empty body; a thrown error is forwarded to `next`. -/
def restControllerHandler (statusMeta : Option Nat) (result : Except JsError JsValue) :
    AdapterOutcome :=
  match result with
  | .error e => .forward e
  | .ok v =>
    if v.truthy then .respond (.jsonRes (effectiveStatusCode statusMeta) (.ofValue v))
    else .respond (.emptyRes 204)

/-- The `Controller` (view-style) per-route handler (lines 63-72 of
`src/controller.ts`): a string return value is served with
`res.status(code).sendFile(path.join(views, name))`; any other return value
forwards `ExpressHelperError(400, "Invalid View Path Type")` to `next`; a
thrown error is forwarded to `next`. -/
def controllerHandler (views : String) (statusMeta : Option Nat)
    (result : Except JsError JsValue) : AdapterOutcome :=
  match result with
  | .error e => .forward e
  | .ok v =>
    match v with
    | .strV s => .respond (.sendFileRes (effectiveStatusCode statusMeta) (pathJoin views s))
    | _ => .forward (.helper 400 "Invalid View Path Type")

/-- What the error-boundary middleware observably does: the response it
writes (if any), whether it logs, and the error it re-throws (if any). -/
structure BoundaryOutcome where
  response : Option ResponseAction
  logged : Bool
  rethrown : Option JsError
deriving DecidableEq

/-- Model of `expressHelperEndpoint` from `src/handler.ts`: an `ExpressHelperError`
(or subclass) is answered with its status and the JSON body `{ message }`;
any other `Error` instance is logged, answered with a bare 500, and
re-thrown; a thrown value that is not an `Error` instance matches neither
`instanceof` branch and nothing happens. -/
def expressHelperEndpoint : JsError → BoundaryOutcome
  | .helper statusCode message =>
    ⟨some (.jsonRes statusCode (.messageObject message)), false, none⟩
  | .genericError m => ⟨some (.emptyRes 500), true, some (.genericError m)⟩
  | .thrownValue _ => ⟨none, false, none⟩

/-- Composition of a route-level outcome with the error boundary: a direct
response stands; a forwarded error is handled by `expressHelperEndpoint`
(registered last via `app.use(expressHelperEndpoint())`). -/
def dispatchOutcome : AdapterOutcome → BoundaryOutcome
  | .respond a => ⟨some a, false, none⟩
  | .forward e => expressHelperEndpoint e

/-- Model of the `HttpMethod` enum from `src/http.ts`. -/
inductive HttpMethod where
  | GET
  | PUT
  | PATCH
  | POST
  | DELETE
  | HEAD
  | CONNECT
  | OPTIONS
  | TRACE
deriving DecidableEq

/-- Model of `HttpMethod.values()` from `src/http.ts` (lines 18-20): exactly GET,
POST, PATCH, DELETE and PUT. -/
def HttpMethod.values : List HttpMethod :=
  [HttpMethod.GET, HttpMethod.POST, HttpMethod.PATCH, HttpMethod.DELETE, HttpMethod.PUT]

/-- Model of `HttpMethod.of` from `src/http.ts`: parse a method name (tabs stripped,
upper-cased); an unrecognised name throws `ExpressHelperError(405,
"Unsupported Http Method")`. -/
def HttpMethod.of (method : String) : Except JsError HttpMethod :=
  match String.mk ((method.toList.filter (fun c => c ≠ '\t')).map Char.toUpper) with
  | "GET" => .ok HttpMethod.GET
  | "POST" => .ok HttpMethod.POST
  | "DELETE" => .ok HttpMethod.DELETE
  | "PUT" => .ok HttpMethod.PUT
  | "PATCH" => .ok HttpMethod.PATCH
  | "HEAD" => .ok HttpMethod.HEAD
  | "CONNECT" => .ok HttpMethod.CONNECT
  | "OPTIONS" => .ok HttpMethod.OPTIONS
  | "TRACE" => .ok HttpMethod.TRACE
  | _ => .error (.helper 405 "Unsupported Http Method")

/-- The router-method name, `m.toLowerCase()`. -/
def HttpMethod.toLowerName : HttpMethod → String
  | .GET => "get"
  | .PUT => "put"
  | .PATCH => "patch"
  | .POST => "post"
  | .DELETE => "delete"
  | .HEAD => "head"
  | .CONNECT => "connect"
  | .OPTIONS => "options"
  | .TRACE => "trace"

/-- The method list stored by the catch-all `RequestMapping(url)` decorator:
`[...HttpMethod.values()]`. -/
def RequestMappingMethods : List HttpMethod := HttpMethod.values

/-- Route registration performed by the `Controller`/`RestController` class
decorators for one handler method: one router entry
`controller[m.toLowerCase()](url, handler)` per declared HTTP method, in
order. -/
def registeredRoutes (url : String) (methods : List HttpMethod) : List (String × String) :=
  methods.map (fun m => (m.toLowerName, url))

/-- Metadata for a method that declares only PathParam and QueryParam
bindings. -/
def mdOnlyParams (pl ql : List ParamMetadata) : MethodMetadata :=
  ⟨none, none, none, none, none, some pl, some ql⟩

/-- The writes a fully successful parameter scan performs, one per binding in
declaration order. -/
def paramWrites (lookup : String → Option String) (l : List ParamMetadata) :
    List (Nat × JsValue) :=
  l.map (fun b => (b.paramIndex, b.validatePipe.parse (.strV ((lookup b.value).getD ""))))

theorem pureParamScan_success (lookup : String → Option String) (l : List ParamMetadata)
    (hf : ∀ b ∈ l, ∃ v, lookup b.value = some v ∧
      b.validatePipe.validate (.strV v) = true) :
    ∀ ws, pureParamScan lookup l ws = (ws ++ paramWrites lookup l, none) := by
  induction l with
  | nil => intro ws; simp [pureParamScan, paramWrites]
  | cons b rest ih =>
    intro ws
    obtain ⟨v, hlk, hval⟩ := hf b (List.mem_cons_self b rest)
    have hrest := fun b' hb' => hf b' (List.mem_cons_of_mem b hb')
    have hpipe : b.validatePipe.pipe (.strV v) = .ok (b.validatePipe.parse (.strV v)) := by
      simp [AbstractParsePipe.pipe, hval]
    simp only [pureParamScan, hlk, hpipe]
    rw [ih hrest]
    simp [paramWrites, hlk, List.append_assoc]

theorem pureResolveArgs_mdOnly (pl ql : List ParamMetadata) (req : JsRequest)
    (hp : ∀ b ∈ pl, ∃ v, lookupStr req.params b.value = some v ∧
      b.validatePipe.validate (.strV v) = true)
    (hq : ∀ b ∈ ql, ∃ v, lookupStr req.query b.value = some v ∧
      b.validatePipe.validate (.strV v) = true) :
    pureResolveArgs (mdOnlyParams pl ql) req =
      (paramWrites (lookupStr req.params) pl ++ paramWrites (lookupStr req.query) ql,
       none) := by
  show pureAndThen (purePathStep (mdOnlyParams pl ql) req [])
      (fun w5 => pureAndThen (pureQueryStep (mdOnlyParams pl ql) req w5)
        (fun w6 => pureCookieStep (mdOnlyParams pl ql) req w6)) = _
  have hpath : purePathStep (mdOnlyParams pl ql) req [] =
      (paramWrites (lookupStr req.params) pl, none) := by
    show pureParamScan (lookupStr req.params) pl [] = _
    rw [pureParamScan_success _ _ hp]
    simp
  rw [hpath, pureAndThen_ok]
  have hquery : pureQueryStep (mdOnlyParams pl ql) req
      (paramWrites (lookupStr req.params) pl) =
      (paramWrites (lookupStr req.params) pl ++ paramWrites (lookupStr req.query) ql,
       none) := by
    show pureParamScan (lookupStr req.query) ql _ = _
    rw [pureParamScan_success _ _ hq]
  rw [hquery, pureAndThen_ok]
  rfl

theorem lastWriteAt_eq_none_iff (ws : List (Nat × JsValue)) (i : Nat) :
    lastWriteAt ws i = none ↔ ∀ v, (i, v) ∉ ws := by
  constructor
  · intro h v hv
    exact lastWriteAt_isSome_of_mem ws i v hv h
  · exact lastWriteAt_none_of_not_mem ws i

theorem lastWriteAt_eq_of_perm_distinct (pw pw' : List (Nat × JsValue))
    (hd : pw.Pairwise (fun a b => a.1 ≠ b.1)) (hperm : pw'.Perm pw) (i : Nat) :
    lastWriteAt pw' i = lastWriteAt pw i := by
  have hd' : pw'.Pairwise (fun a b => a.1 ≠ b.1) :=
    (List.Perm.pairwise_iff (fun h => Ne.symm h) hperm).mpr hd
  cases h : lastWriteAt pw i with
  | some v =>
    exact lastWriteAt_eq_some_of_mem_distinct pw' i v hd'
      (hperm.mem_iff.mpr (lastWriteAt_mem pw i v h))
  | none =>
    rw [lastWriteAt_eq_none_iff] at h ⊢
    exact fun v hv => h v (hperm.mem_iff.mp hv)

/-- C8: for a handler method declaring only PathParam/QueryParam bindings
with pairwise-distinct argument indices all below the method's arity, and a
request that supplies every named key with a value its pipe accepts,
resolution succeeds, every bound index holds exactly its own pipe's parsed
value of its own named parameter, and the complete result is invariant under
any permutation (declaration reordering) of the path bindings and of the
query bindings. -/
theorem C8_param_resolution_positional_order_independent
    (pl ql : List ParamMetadata) (req : JsRequest) (n : Nat)
    (hp : ∀ b ∈ pl, ∃ v, lookupStr req.params b.value = some v ∧
      b.validatePipe.validate (.strV v) = true)
    (hq : ∀ b ∈ ql, ∃ v, lookupStr req.query b.value = some v ∧
      b.validatePipe.validate (.strV v) = true)
    (hdist : (pl ++ ql).Pairwise (fun a b => a.paramIndex ≠ b.paramIndex))
    (hlt : ∀ b ∈ pl ++ ql, b.paramIndex < n) :
    (resolveArgs (mdOnlyParams pl ql) req (freshArgs n)).2 = none ∧
    (∀ b ∈ pl, ∀ v, lookupStr req.params b.value = some v →
      (resolveArgs (mdOnlyParams pl ql) req (freshArgs n)).1[b.paramIndex]? =
        some (b.validatePipe.parse (.strV v))) ∧
    (∀ b ∈ ql, ∀ v, lookupStr req.query b.value = some v →
      (resolveArgs (mdOnlyParams pl ql) req (freshArgs n)).1[b.paramIndex]? =
        some (b.validatePipe.parse (.strV v))) ∧
    (∀ pl' ql', pl.Perm pl' → ql.Perm ql' →
      resolveArgs (mdOnlyParams pl' ql') req (freshArgs n) =
        resolveArgs (mdOnlyParams pl ql) req (freshArgs n)) := by
  have hbridge := resolveArgs_bridge (mdOnlyParams pl ql) req (freshArgs n)
    (fun b hb => Option.noConfusion hb)
  rw [pureResolveArgs_mdOnly pl ql req hp hq] at hbridge
  set pw := paramWrites (lookupStr req.params) pl ++
    paramWrites (lookupStr req.query) ql with hpw
  have hsplit := List.pairwise_append.mp hdist
  have hdistw : pw.Pairwise (fun a b => a.1 ≠ b.1) := by
    rw [hpw]
    apply List.pairwise_append.mpr
    refine ⟨List.pairwise_map.mpr hsplit.1, List.pairwise_map.mpr hsplit.2.1, ?_⟩
    intro x hx y hy
    obtain ⟨a, ha, rfl⟩ := List.mem_map.mp hx
    obtain ⟨c, hc, rfl⟩ := List.mem_map.mp hy
    exact hsplit.2.2 a ha c hc
  have hlenf : (freshArgs n).length = n := List.length_replicate _ _
  refine ⟨?_, ?_, ?_, ?_⟩
  · rw [hbridge]
  · intro b hb v hv
    rw [hbridge]
    show (applyWrites pw (freshArgs n))[b.paramIndex]? = _
    rw [applyWrites_getElem?]
    have hmem : (b.paramIndex, b.validatePipe.parse (.strV v)) ∈ pw := by
      apply List.mem_append.mpr
      left
      have hm := List.mem_map_of_mem
        (fun b : ParamMetadata =>
          (b.paramIndex, b.validatePipe.parse
            (.strV ((lookupStr req.params b.value).getD "")))) hb
      have hm2 : (b.paramIndex, b.validatePipe.parse
          (.strV ((lookupStr req.params b.value).getD ""))) ∈
          paramWrites (lookupStr req.params) pl := hm
      rw [hv] at hm2
      exact hm2
    rw [lastWriteAt_eq_some_of_mem_distinct pw _ _ hdistw hmem]
    have hblt : b.paramIndex < n := hlt b (List.mem_append.mpr (Or.inl hb))
    rw [hlenf]
    simp [hblt]
  · intro b hb v hv
    rw [hbridge]
    show (applyWrites pw (freshArgs n))[b.paramIndex]? = _
    rw [applyWrites_getElem?]
    have hmem : (b.paramIndex, b.validatePipe.parse (.strV v)) ∈ pw := by
      apply List.mem_append.mpr
      right
      have hm := List.mem_map_of_mem
        (fun b : ParamMetadata =>
          (b.paramIndex, b.validatePipe.parse
            (.strV ((lookupStr req.query b.value).getD "")))) hb
      have hm2 : (b.paramIndex, b.validatePipe.parse
          (.strV ((lookupStr req.query b.value).getD ""))) ∈
          paramWrites (lookupStr req.query) ql := hm
      rw [hv] at hm2
      exact hm2
    rw [lastWriteAt_eq_some_of_mem_distinct pw _ _ hdistw hmem]
    have hblt : b.paramIndex < n := hlt b (List.mem_append.mpr (Or.inr hb))
    rw [hlenf]
    simp [hblt]
  · intro pl' ql' hpp hqq
    have hp' : ∀ b ∈ pl', ∃ v, lookupStr req.params b.value = some v ∧
        b.validatePipe.validate (.strV v) = true :=
      fun b hb => hp b (hpp.mem_iff.mpr hb)
    have hq' : ∀ b ∈ ql', ∃ v, lookupStr req.query b.value = some v ∧
        b.validatePipe.validate (.strV v) = true :=
      fun b hb => hq b (hqq.mem_iff.mpr hb)
    have hbridge' := resolveArgs_bridge (mdOnlyParams pl' ql') req (freshArgs n)
      (fun b hb => Option.noConfusion hb)
    rw [pureResolveArgs_mdOnly pl' ql' req hp' hq'] at hbridge'
    rw [hbridge, hbridge']
    have hperm : (paramWrites (lookupStr req.params) pl' ++
        paramWrites (lookupStr req.query) ql').Perm pw :=
      List.Perm.append (List.Perm.symm (hpp.map _)) (List.Perm.symm (hqq.map _))
    have happ : applyWrites (paramWrites (lookupStr req.params) pl' ++
        paramWrites (lookupStr req.query) ql') (freshArgs n) =
        applyWrites pw (freshArgs n) := by
      apply List.ext_getElem?_iff.mpr
      intro i
      rw [applyWrites_getElem?, applyWrites_getElem?,
        lastWriteAt_eq_of_perm_distinct pw _ hdistw hperm i]
    rw [happ]

/-- The per-concern metadata keys: the module-level `Symbol(...)` constants of
`src/controller.ts` (lines 27-38). -/
inductive MetaKey where
  | requestMeta
  | requestArg
  | responseArg
  | pathParamArg
  | queryParamArg
  | bodyArg
  | authenticationArg
  | cookieArg
  | statusCodeKey
  | authKey
deriving DecidableEq

/-- A metadata target.  `reflect-metadata` keys metadata by the target object
(normally a class prototype) plus an optional property key; the `Cookie`
decorator instead passes the property-key *string itself* as the target
(`Reflect.defineMetadata(key, md, propertyKey)`, line 887), so the two kinds
of target never alias. -/
inductive MetaTarget where
  | prototypeOf (className : String)
  | propertyKeyTarget (name : String)
deriving DecidableEq

/-- The values stored in the metadata store by the parameter decorators. -/
inductive MetaVal where
  | natVal (n : Nat)
  | paramList (l : List ParamMetadata)
  | bodyVal (b : BodyMetadata)
  | cookieVal (c : CookieMetadata)

/-- The metadata store: `(key, target, property) → value`, per the
get/set-by-key capability the core consumes from `reflect-metadata`. -/
def MetaStore : Type := MetaKey → MetaTarget → Option String → Option MetaVal

def emptyMetaStore : MetaStore := fun _ _ _ => none

/-- Model of `Reflect.defineMetadata(key, value, target[, propertyKey])`. -/
def defineMetadata (k : MetaKey) (v : MetaVal) (t : MetaTarget) (m : Option String)
    (s : MetaStore) : MetaStore :=
  fun k' t' m' => if k' = k ∧ t' = t ∧ m' = m then some v else s k' t' m'

/-- Model of `Reflect.getMetadata(key, target[, propertyKey])`. -/
def getMetadata (s : MetaStore) (k : MetaKey) (t : MetaTarget) (m : Option String) :
    Option MetaVal :=
  s k t m

/-- The `Param` parameter decorator (lines 742-753): append the binding to the
list stored at `(pathParamArgumentMetadataKey, target, propertyKey)`. -/
def ParamDecorator (value : String) (pipe : AbstractParsePipe) (target : MetaTarget)
    (propertyKey : String) (parameterIndex : Nat) (s : MetaStore) : MetaStore :=
  let existing : List ParamMetadata :=
    match getMetadata s .pathParamArg target (some propertyKey) with
    | some (.paramList l) => l
    | _ => []
  defineMetadata .pathParamArg (.paramList (existing ++ [⟨value, parameterIndex, pipe⟩]))
    target (some propertyKey) s

/-- The `Query` parameter decorator (lines 781-792), analogous to `Param`. -/
def QueryDecorator (value : String) (pipe : AbstractParsePipe) (target : MetaTarget)
    (propertyKey : String) (parameterIndex : Nat) (s : MetaStore) : MetaStore :=
  let existing : List ParamMetadata :=
    match getMetadata s .queryParamArg target (some propertyKey) with
    | some (.paramList l) => l
    | _ => []
  defineMetadata .queryParamArg (.paramList (existing ++ [⟨value, parameterIndex, pipe⟩]))
    target (some propertyKey) s

/-- The `Cookie` parameter decorator (lines 882-890): note the source calls
`Reflect.defineMetadata(cookieArgumentMetadataKey, {...}, propertyKey)` — the
property-key string stands where the target belongs and no property key is
passed, so the record is stored under the `propertyKeyTarget` and a single
slot (a second `Cookie` binding on the same method overwrites the first). -/
def CookieDecorator (value : String) (pipe : AbstractParsePipe) (target : MetaTarget)
    (propertyKey : String) (parameterIndex : Nat) (s : MetaStore) : MetaStore :=
  defineMetadata .cookieArg (.cookieVal ⟨value, parameterIndex, pipe⟩)
    (.propertyKeyTarget propertyKey) none s

/-- The `Req` parameter decorator (lines 643-647). -/
def ReqDecorator (target : MetaTarget) (propertyKey : String) (parameterIndex : Nat)
    (s : MetaStore) : MetaStore :=
  defineMetadata .requestArg (.natVal parameterIndex) target (some propertyKey) s

/-- The `Res` parameter decorator (lines 674-678). -/
def ResDecorator (target : MetaTarget) (propertyKey : String) (parameterIndex : Nat)
    (s : MetaStore) : MetaStore :=
  defineMetadata .responseArg (.natVal parameterIndex) target (some propertyKey) s

/-- The `Body` parameter decorator (lines 705-714). -/
def BodyDecorator (pipe : AbstractParsePipe) (target : MetaTarget) (propertyKey : String)
    (parameterIndex : Nat) (s : MetaStore) : MetaStore :=
  defineMetadata .bodyArg (.bodyVal ⟨parameterIndex, pipe⟩) target (some propertyKey) s

/-- The `AuthenticatedUser` parameter decorator (lines 819-823). -/
def AuthenticatedUserDecorator (target : MetaTarget) (propertyKey : String)
    (parameterIndex : Nat) (s : MetaStore) : MetaStore :=
  defineMetadata .authenticationArg (.natVal parameterIndex) target (some propertyKey) s

/-- The metadata reads `argumentsResolvedHandler` performs at registration
time (lines 141-156): every `Reflect.getMetadata(key, target, propertyKey)`
uses the class prototype as the target. -/
def readMethodMetadata (s : MetaStore) (target : MetaTarget) (propertyKey : String) :
    MethodMetadata :=
  ⟨(match getMetadata s .requestArg target (some propertyKey) with
      | some (.natVal n) => some n
      | _ => none),
   (match getMetadata s .responseArg target (some propertyKey) with
      | some (.natVal n) => some n
      | _ => none),
   (match getMetadata s .bodyArg target (some propertyKey) with
      | some (.bodyVal b) => some b
      | _ => none),
   (match getMetadata s .authenticationArg target (some propertyKey) with
      | some (.natVal n) => some n
      | _ => none),
   (match getMetadata s .cookieArg target (some propertyKey) with
      | some (.cookieVal c) => some c
      | _ => none),
   (match getMetadata s .pathParamArg target (some propertyKey) with
      | some (.paramList l) => some l
      | _ => none),
   (match getMetadata s .queryParamArg target (some propertyKey) with
      | some (.paramList l) => some l
      | _ => none)⟩

/-- The metadata store after class definition of the repository's own test
controller: `cookie(@Cookie('sessionId') sessionId, @Cookie('key') key)` on a
GET route at `/cookie`.  Parameter decorators run right-to-left, so
`Cookie('key')` (index 1) applies first and `Cookie('sessionId')` (index 0)
second. -/
def c1Store : MetaStore :=
  CookieDecorator "sessionId" ParseEmptyPipe (.prototypeOf "TestController") "cookie" 0
    (CookieDecorator "key" ParseEmptyPipe (.prototypeOf "TestController") "cookie" 1
      emptyMetaStore)

/-- The metadata `argumentsResolvedHandler` reads for that method. -/
def c1Metadata : MethodMetadata :=
  readMethodMetadata c1Store (.prototypeOf "TestController") "cookie"

/-- The test's request: `GET /cookie` with header
`Cookie: sessionId=abc; key=xyz`, no cookie-parser middleware. -/
def c1Request : JsRequest := ⟨[], [], none, some "sessionId=abc; key=xyz", .undef, .undef⟩

/-- C1: the claim (and the repository's own test) requires the handler to be
invoked with `("abc", "xyz")`, each Cookie binding filling its own argIndex.
The code cannot do this: the `Cookie` decorator stores its record with the
property-key string in the target position and no property key, so the
resolver's `Reflect.getMetadata(cookieArgumentMetadataKey, target,
propertyKey)` read finds nothing (first conjunct); moreover the single
metadata slot retains only the last-applied binding (second conjunct), and the
resolver writes cookie values at `bodyMetaData.paramIndex`, not the binding's
own index.  Resolution therefore succeeds with both arguments `undefined`,
not `("abc", "xyz")`. -/
theorem C1_cookie_bindings_never_resolved :
    c1Metadata.cookieMetaData = none ∧
    (∃ c : CookieMetadata,
      getMetadata c1Store .cookieArg (.propertyKeyTarget "cookie") none =
        some (.cookieVal c) ∧ c.value = "sessionId" ∧ c.paramIndex = 0) ∧
    resolveArgs c1Metadata c1Request (freshArgs 2) = ([.undef, .undef], none) ∧
    [JsValue.undef, JsValue.undef] ≠ [JsValue.strV "abc", JsValue.strV "xyz"] := by
  refine ⟨rfl, ⟨⟨"sessionId", 0, ParseEmptyPipe⟩, rfl, rfl, rfl⟩, ?_, by decide⟩
  decide

/-- A two-binding path-parameter method (the repository's
`@Param('name')`/`@Param('id', ParseIntPipe)` test shape). -/
def mdC2pq : MethodMetadata :=
  mdOnlyParams [⟨"name", 0, ParseEmptyPipe⟩, ⟨"id", 1, ParseIntPipe⟩] []

/-- A request supplying both path variables. -/
def reqC2a : JsRequest := ⟨[("name", "foo"), ("id", "4")], [], none, none, .undef, .undef⟩

/-- The same route called with `id` absent. -/
def reqC2b : JsRequest := ⟨[("name", "foo")], [], none, none, .undef, .undef⟩

/-- C2 counterexample: the `resolvedArguments` array is NOT freshly allocated
per invocation — it is allocated once at registration time (line 141 of
`src/controller.ts`) and mutated in place.  After a first successful request
the array differs from a fresh one, and when a second request fails (missing
`id`), the array it mutated still holds the value `4` resolved by the first
request at index 1 — mutable state shared across invocations, where fresh
allocation would have left `undefined` there. -/
theorem C2_counterexample_shared_array :
    (resolveArgs mdC2pq reqC2a (freshArgs 2)).1 ≠ freshArgs 2 ∧
    runInvocations mdC2pq [reqC2a, reqC2b] (freshArgs 2) =
      [([.strV "foo", .numV (.val 4)], none),
       ([.strV "foo", .numV (.val 4)], some (.helper 400 "Bad Request"))] ∧
    (resolveArgs mdC2pq reqC2b (freshArgs 2)).1 = [.strV "foo", .undef] := by
  refine ⟨by decide, by decide, by decide⟩

/-- C2 (amended): although the argument array is allocated once per method
and shared by all invocations of the closure, the observable outcome of every
invocation — the thrown error, or the argument list the handler is invoked
with — is a pure function of the method metadata and that invocation's
request alone, identical to fresh-per-invocation allocation: every bound
index is freshly overwritten before any handler call and unbound indices are
never written.  Concurrent or sequential requests therefore cannot observe
each other's resolved values (given the §3 invariant that every binding's
argIndex is below the method's arity). -/
theorem C2_shared_array_observationally_pure
    (md : MethodMetadata) (n : Nat) (reqs : List JsRequest)
    (hw : ∀ i, writableIdx md i → i < n) :
    (runInvocations md reqs (freshArgs n)).map obsOutcome =
      reqs.map (fun r => obsOutcome (resolveArgs md r (freshArgs n))) :=
  runInvocations_obs md n hw reqs (freshArgs n) (List.length_replicate _ _)
    (fun _ _ => rfl)

/-- A method with no declared bindings at all. -/
def mdC2empty : MethodMetadata := ⟨none, none, none, none, none, none, none⟩

theorem C2_purity_witness :
    (runInvocations mdC2empty [reqC2a] (freshArgs 2)).map obsOutcome =
      [reqC2a].map (fun r => obsOutcome (resolveArgs mdC2empty r (freshArgs 2))) := by
  apply C2_shared_array_observationally_pure mdC2empty 2 [reqC2a]
  intro i hi
  rcases hi with h | h | ⟨b, hb, _⟩ | h | ⟨l, p, hl, _, _⟩ | ⟨l, p, hl, _, _⟩
  · exact Option.noConfusion h
  · exact Option.noConfusion h
  · exact Option.noConfusion hb
  · exact Option.noConfusion h
  · exact Option.noConfusion hl
  · exact Option.noConfusion hl

/-- C3 counterexample: a JSON-style handler returning the defined falsy value
`0` is answered with 204 and an empty body, not with 200 and `0` serialized
as JSON — the adapter tests truthiness (`if (returnValue)`), not
definedness. -/
theorem C3_counterexample_zero_gives_204 :
    restControllerHandler none (.ok (.numV (.val 0))) = .respond (.emptyRes 204) ∧
    AdapterOutcome.respond (.emptyRes 204) ≠
      .respond (.jsonRes 200 (.ofValue (.numV (.val 0)))) := by
  exact ⟨by decide, by decide⟩

/-- C3 (amended): the JSON-style adapter responds with the configured
(default 200) status and the value as JSON exactly when the returned value is
truthy, and with a bare 204 when it is falsy — the falsy values being
`undefined`, `null`, `false`, `NaN`, `0` and `""` (so `undefined` gets 204 as
the claim says, but so do the defined values `0`, `""` and `false`); thrown
errors are forwarded to the error middleware. -/
theorem C3_rest_adapter_truthiness (statusMeta : Option Nat) (v : JsValue) (e : JsError) :
    restControllerHandler statusMeta (.ok v) =
      (if v.truthy then .respond (.jsonRes (effectiveStatusCode statusMeta) (.ofValue v))
       else .respond (.emptyRes 204)) ∧
    (v.truthy = false ↔ v = .undef ∨ v = .nullV ∨ v = .boolV false ∨
      v = .numV .nan ∨ v = .numV (.val 0) ∨ v = .strV "") ∧
    restControllerHandler statusMeta (.error e) = .forward e ∧
    effectiveStatusCode none = 200 := by
  refine ⟨rfl, ?_, rfl, rfl⟩
  cases v with
  | undef => simp [JsValue.truthy]
  | nullV => simp [JsValue.truthy]
  | boolV b => cases b <;> simp [JsValue.truthy]
  | numV n =>
    cases n with
    | nan => simp [JsValue.truthy]
    | posInf => simp [JsValue.truthy]
    | negInf => simp [JsValue.truthy]
    | val q => simp [JsValue.truthy]
  | strV s => simp [JsValue.truthy]
  | objV id => simp [JsValue.truthy]
  | requestRef => simp [JsValue.truthy]
  | responseRef => simp [JsValue.truthy]

theorem dropWhile_eq_self_of_all {p : Char → Bool} (l : List Char)
    (h : ∀ c ∈ l, p c = false) : l.dropWhile p = l := by
  cases l with
  | nil => rfl
  | cons a l => simp [List.dropWhile_cons, h a (List.mem_cons_self a l)]

theorem trimJs_of_no_ws (cs : List Char) (h : ∀ c ∈ cs, isJsWhitespace c = false) :
    trimJs cs = cs := by
  unfold trimJs
  rw [dropWhile_eq_self_of_all cs h,
    dropWhile_eq_self_of_all cs.reverse (fun c hc => h c (List.mem_reverse.mp hc)),
    List.reverse_reverse]

theorem isDigit_ne (c d : Char) (h : c.isDigit = true) (hd : d.isDigit = false) :
    c ≠ d := fun he => by
  subst he
  rw [h] at hd
  exact Bool.noConfusion hd

theorem isDigit_not_ws (c : Char) (h : c.isDigit = true) : isJsWhitespace c = false := by
  unfold isJsWhitespace
  have h1 := isDigit_ne c ' ' h (by decide)
  have h2 := isDigit_ne c '\t' h (by decide)
  have h3 := isDigit_ne c '\n' h (by decide)
  have h4 := isDigit_ne c '\r' h (by decide)
  have h5 := isDigit_ne c '\x0b' h (by decide)
  have h6 := isDigit_ne c '\x0c' h (by decide)
  simp [h1, h2, h3, h4, h5, h6]

theorem parseNonDecimal_digits (cs : List Char) (h : ∀ c ∈ cs, c.isDigit = true) :
    parseNonDecimal cs = none := by
  unfold parseNonDecimal
  split
  · rename_i x ds
    have h2 : x.isDigit = true :=
      h x (List.mem_cons_of_mem _ (List.mem_cons_self _ _))
    have hx := isDigit_ne x 'x' h2 (by decide)
    have hX := isDigit_ne x 'X' h2 (by decide)
    have ho := isDigit_ne x 'o' h2 (by decide)
    have hO := isDigit_ne x 'O' h2 (by decide)
    have hb := isDigit_ne x 'b' h2 (by decide)
    have hB := isDigit_ne x 'B' h2 (by decide)
    rw [if_neg (by rintro ⟨(h' | h'), -⟩ <;> [exact hx h'; exact hX h']),
      if_neg (by rintro ⟨(h' | h'), -⟩ <;> [exact ho h'; exact hO h']),
      if_neg (by rintro ⟨(h' | h'), -⟩ <;> [exact hb h'; exact hB h'])]
  · rfl

theorem jsStringToNumber_digits (cs : List Char) (h1 : cs ≠ [])
    (h2 : ∀ c ∈ cs, c.isDigit = true) :
    jsStringToNumber (String.mk cs) = .val (qOfNat (digitsVal 10 cs)) := by
  have htrim : trimJs (String.mk cs).toList = cs :=
    trimJs_of_no_ws cs (fun c hc => isDigit_not_ws c (h2 c hc))
  have hmant : parseDecMantissa cs = some (cs, [], []) := by
    unfold parseDecMantissa
    rw [List.takeWhile_eq_self_iff.mpr h2, List.dropWhile_eq_nil_iff.mpr h2]
    show (if cs = [] then none else some (cs, ([] : List Char), ([] : List Char))) = _
    rw [if_neg h1]
  have hun : parseUnsignedNumber cs = some (.val (decLitVal cs [] 0)) := by
    unfold parseUnsignedNumber
    rw [if_neg (fun heq : cs = ['I', 'n', 'f', 'i', 'n', 'i', 't', 'y'] => by
      have hmem : 'I' ∈ cs := by rw [heq]; exact List.mem_cons_self _ _
      exact absurd (h2 'I' hmem) (by decide)), hmant]
    rfl
  have hdec : decLitVal cs [] 0 = qOfNat (digitsVal 10 cs) := by
    simp [decLitVal, qOfNat, digitsVal]
  unfold jsStringToNumber
  rw [htrim]
  split
  · exact absurd rfl h1
  · exact absurd (h2 '+' (List.mem_cons_self _ _)) (by decide)
  · exact absurd (h2 '-' (List.mem_cons_self _ _)) (by decide)
  · rw [parseNonDecimal_digits cs h2]
    show (parseUnsignedNumber cs).getD .nan = _
    rw [hun]
    show JsNum.val (decLitVal cs [] 0) = _
    rw [hdec]

theorem jsParseIntStr_digits (cs : List Char) (h1 : cs ≠ [])
    (h2 : ∀ c ∈ cs, c.isDigit = true) :
    jsParseIntStr (String.mk cs) = .val (qOfNat (digitsVal 10 cs)) := by
  have htrim : trimJs (String.mk cs).toList = cs :=
    trimJs_of_no_ws cs (fun c hc => isDigit_not_ws c (h2 c hc))
  have hbody : parseIntBody cs = cs := by
    unfold parseIntBody
    split
    · exact absurd (h2 '+' (List.mem_cons_self _ _)) (by decide)
    · exact absurd (h2 '-' (List.mem_cons_self _ _)) (by decide)
    · rfl
  have hsign : parseIntSign cs = 1 := by
    unfold parseIntSign
    split
    · exact absurd (h2 '-' (List.mem_cons_self _ _)) (by decide)
    · rfl
  have hhex : parseIntIsHex cs = false := by
    unfold parseIntIsHex
    split
    · rename_i x r
      have hx2 : x.isDigit = true :=
        h2 x (List.mem_cons_of_mem _ (List.mem_cons_self _ _))
      have hx := isDigit_ne x 'x' hx2 (by decide)
      have hX := isDigit_ne x 'X' hx2 (by decide)
      simp [hx, hX]
    · rfl
  unfold jsParseIntStr jsParseIntCore
  rw [htrim, hbody, hhex, hsign]
  show (if (List.takeWhile Char.isDigit cs) = [] then JsNum.nan
      else .val (qOfInt (1 * Int.ofNat (digitsVal 10 (List.takeWhile Char.isDigit cs))))) = _
  rw [List.takeWhile_eq_self_iff.mpr h2, if_neg h1]
  show JsNum.val (qOfInt (1 * Int.ofNat (digitsVal 10 cs))) = _
  rw [one_mul]
  rfl

/-- C4 counterexample: the integer pipe's validity test is `!isNaN(Number(v))`,
which accepts the non-finite value `"Infinity"` — the claim requires a string
denoting a non-finite value to be invalid.  (Its parse, `parseInt("Infinity")`,
is then NaN.) -/
theorem C4_counterexample_infinity_validates :
    ParseIntPipe.validate (.strV "Infinity") = true ∧
    jsStringToNumber "Infinity" = .posInf ∧
    ParseIntPipe.parse (.strV "Infinity") = .numV .nan := by
  refine ⟨by decide, by decide, by decide⟩

/-- C4 (amended): the integer pipe validates a string iff `Number(s)` is not
NaN — finite OR infinite — and parses with `parseInt`, which truncates a
leading decimal-digit run rather than the string's numeric value (so
`validate("42") = true` with `parse("42") = 42`, any non-empty all-digit
string parses to its decimal value, `validate("abc") = false`, but
`validate("Infinity") = true` and `parse("1e3") = 1` although
`Number("1e3") = 1000`). -/
theorem C4_intpipe_amended :
    (∀ s : String, ParseIntPipe.validate (.strV s) = !(jsStringToNumber s).isNaN) ∧
    (∀ s : String, ParseIntPipe.parse (.strV s) = .numV (jsParseIntStr s)) ∧
    (∀ cs : List Char, cs ≠ [] → (∀ c ∈ cs, c.isDigit = true) →
      ParseIntPipe.validate (.strV (String.mk cs)) = true ∧
      ParseIntPipe.parse (.strV (String.mk cs)) =
        .numV (.val (qOfNat (digitsVal 10 cs)))) ∧
    ParseIntPipe.validate (.strV "42") = true ∧
    ParseIntPipe.parse (.strV "42") = .numV (.val 42) ∧
    ParseIntPipe.validate (.strV "abc") = false ∧
    ParseIntPipe.parse (.strV "1e3") = .numV (.val 1) ∧
    jsStringToNumber "1e3" = .val 1000 := by
  refine ⟨fun s => rfl, fun s => rfl, ?_, by decide, by decide, by decide, by decide,
    by decide⟩
  intro cs h1 h2
  constructor
  · show (!(jsStringToNumber (String.mk cs)).isNaN) = true
    rw [jsStringToNumber_digits cs h1 h2]
    rfl
  · show JsValue.numV (jsParseIntStr (String.mk cs)) = _
    rw [jsParseIntStr_digits cs h1 h2]

theorem C4_intpipe_amended_witness :
    ParseIntPipe.validate (.strV (String.mk ['4', '2'])) = true ∧
    ParseIntPipe.parse (.strV (String.mk ['4', '2'])) =
      .numV (.val (qOfNat (digitsVal 10 ['4', '2']))) :=
  C4_intpipe_amended.2.2.1 ['4', '2'] (by decide) (by decide)

/-- C5: the pipe template method returns `parse(x)` exactly when `validate(x)`
holds, and otherwise throws a `ValidatePipeError` carrying exactly the pipe's
configured status and message; the result never depends on `parse` when
validation fails (so `parse` is never invoked on invalid input), and the
constructor defaults are 400 / "Bad Request". -/
theorem C5_pipe_contract (P : AbstractParsePipe) (x : JsValue) :
    (P.validate x = true → P.pipe x = .ok (P.parse x)) ∧
    (P.validate x = false → P.pipe x = .error (.helper P.statusCode P.message)) ∧
    (P.pipe x = .error (.helper P.statusCode P.message) ∨ P.pipe x = .ok (P.parse x)) ∧
    (∀ parse2, P.validate x = false →
      (AbstractParsePipe.mk P.validate parse2 P.statusCode P.message).pipe x = P.pipe x) ∧
    (AbstractParsePipe.mkDefault P.validate P.parse).statusCode = 400 ∧
    (AbstractParsePipe.mkDefault P.validate P.parse).message = "Bad Request" := by
  refine ⟨?_, ?_, ?_, ?_, rfl, rfl⟩
  · intro h
    simp [AbstractParsePipe.pipe, h]
  · intro h
    simp [AbstractParsePipe.pipe, h]
  · by_cases h : P.validate x = true
    · right
      simp [AbstractParsePipe.pipe, h]
    · left
      simp [AbstractParsePipe.pipe, h]
  · intro parse2 h
    simp [AbstractParsePipe.pipe, h]

theorem C5_pipe_contract_witness :
    ParseEmptyPipe.pipe (.strV "a") = .ok (.strV "a") ∧
    ParseIntPipe.pipe (.strV "abc") = .error (.helper 400 "Bad Request") :=
  ⟨(C5_pipe_contract ParseEmptyPipe (.strV "a")).1 rfl,
   (C5_pipe_contract ParseIntPipe (.strV "abc")).2.1 (by decide)⟩

theorem resolveParamList_missing (lookup : String → Option String)
    (pre : List ParamMetadata) (b : ParamMetadata) (post : List ParamMetadata)
    (hpre : ∀ a ∈ pre, ∃ v, lookup a.value = some v ∧
      a.validatePipe.validate (.strV v) = true)
    (hmiss : lookup b.value = none) :
    ∀ st, (resolveParamList lookup (pre ++ b :: post) st).2 =
      some (.helper 400 "Bad Request") := by
  induction pre with
  | nil =>
    intro st
    simp only [List.nil_append, resolveParamList, hmiss]
  | cons a pre ih =>
    intro st
    obtain ⟨v, hlk, hval⟩ := hpre a (List.mem_cons_self a pre)
    have hpipe : a.validatePipe.pipe (.strV v) = .ok (a.validatePipe.parse (.strV v)) := by
      simp [AbstractParsePipe.pipe, hval]
    simp only [List.cons_append, resolveParamList, hlk, hpipe]
    exact ih (fun a' ha' => hpre a' (List.mem_cons_of_mem a ha')) _

theorem resolveArgs_mdOnly_path_err (pl ql : List ParamMetadata) (req : JsRequest)
    (st : List JsValue) (e : JsError)
    (h : (resolveParamList (lookupStr req.params) pl st).2 = some e) :
    (resolveArgs (mdOnlyParams pl ql) req st).2 = some e := by
  show (andThenStep (resolveParamList (lookupStr req.params) pl st) _).2 = some e
  rcases hp : resolveParamList (lookupStr req.params) pl st with ⟨st2, e2⟩
  rw [hp] at h
  have he : e2 = some e := h
  subst he
  rfl

theorem resolveArgs_mdOnly_query_err (pl ql : List ParamMetadata) (req : JsRequest)
    (st : List JsValue) (e : JsError)
    (hpath : (resolveParamList (lookupStr req.params) pl st).2 = none)
    (h : (resolveParamList (lookupStr req.query) ql
      (resolveParamList (lookupStr req.params) pl st).1).2 = some e) :
    (resolveArgs (mdOnlyParams pl ql) req st).2 = some e := by
  show (andThenStep (resolveParamList (lookupStr req.params) pl st) _).2 = some e
  rcases hp : resolveParamList (lookupStr req.params) pl st with ⟨st2, e2⟩
  rw [hp] at hpath h
  have he : e2 = none := hpath
  subst he
  show (andThenStep (resolveParamList (lookupStr req.query) ql st2) _).2 = some e
  rcases hq : resolveParamList (lookupStr req.query) ql st2 with ⟨st3, e3⟩
  rw [hq] at h
  have he3 : e3 = some e := h
  subst he3
  rfl

theorem cookieFallbackScan_no_match (cm : CookieMetadata) (bodyIdx : Nat)
    (pairs : List (List Char))
    (hnm : ∀ c ∈ pairs, String.mk ((splitEq c []).getD 0 []) ≠ cm.value) :
    ∀ st, cookieFallbackScan cm bodyIdx pairs st = (st, none) := by
  induction pairs with
  | nil => intro st; rfl
  | cons c rest ih =>
    intro st
    simp only [cookieFallbackScan,
      if_neg (hnm c (List.mem_cons_self c rest))]
    exact ih (fun c' hc' => hnm c' (List.mem_cons_of_mem c hc')) st

theorem getD_set_replicate_undef (n i : Nat) :
    (((freshArgs n).set i JsValue.undef).getD i JsValue.undef) = JsValue.undef := by
  rw [List.getD_eq_getElem?_getD, getElem?_set_full]
  by_cases h : i = i ∧ i < (freshArgs n).length
  · rw [if_pos h]
    rfl
  · rw [if_neg h]
    have hge : (freshArgs n).length ≤ i := by
      rcases Nat.lt_or_ge i (freshArgs n).length with h2 | h2
      · exact absurd ⟨rfl, h2⟩ h
      · exact h2
    rw [List.getElem?_eq_none_iff.mpr hge]
    rfl

/-- C6 counterexample: with a pre-parsed cookie jar that lacks the declared
cookie's key, the resolver pipes `undefined` through the default pipe and
resolution SUCCEEDS — no `ExpressHelperError(400, "Bad Request")` is thrown,
although the claim requires a 400 for a missing cookie key under the
pre-parsed jar. -/
theorem C6_counterexample_jar_missing_cookie_no_error :
    (resolveArgs ⟨none, none, some ⟨0, ParseEmptyPipe⟩, none,
        some ⟨"sid", 1, ParseEmptyPipe⟩, none, none⟩
      ⟨[], [], some [("other", "x")], none, .undef, .undef⟩ (freshArgs 2)).2 = none ∧
    (none : Option JsError) ≠ some (.helper 400 "Bad Request") := by
  exact ⟨by decide, by decide⟩

/-- C6 (amended): a missing PathParam key fails with
`ExpressHelperError(400, "Bad Request")` (first conjunct), a missing
QueryParam key does too once all path bindings resolved (second conjunct),
and the missing-cookie 400 holds only in the raw-header fallback — when no
jar is present, the header is non-empty, no pair's key matches, and the Body
binding's slot (which the cookie code checks) holds `undefined` (third
conjunct); the boundary middleware turns that error into a 400 response with
JSON body `{"message": "Bad Request"}` (last conjunct).  Under a pre-parsed
jar a missing key is piped through as `undefined` instead (see the
counterexample). -/
theorem C6_missing_key_amended :
    (∀ (ql pre post : List ParamMetadata) (b : ParamMetadata) (req : JsRequest)
        (st : List JsValue),
      (∀ a ∈ pre, ∃ v, lookupStr req.params a.value = some v ∧
        a.validatePipe.validate (.strV v) = true) →
      lookupStr req.params b.value = none →
      (resolveArgs (mdOnlyParams (pre ++ b :: post) ql) req st).2 =
        some (.helper 400 "Bad Request")) ∧
    (∀ (pl pre post : List ParamMetadata) (b : ParamMetadata) (req : JsRequest)
        (st : List JsValue),
      (∀ a ∈ pl, ∃ v, lookupStr req.params a.value = some v ∧
        a.validatePipe.validate (.strV v) = true) →
      (∀ a ∈ pre, ∃ v, lookupStr req.query a.value = some v ∧
        a.validatePipe.validate (.strV v) = true) →
      lookupStr req.query b.value = none →
      (resolveArgs (mdOnlyParams pl (pre ++ b :: post)) req st).2 =
        some (.helper 400 "Bad Request")) ∧
    (∀ (cm : CookieMetadata) (bm : BodyMetadata) (req : JsRequest) (n : Nat),
      req.cookies = none →
      headerCookieTruthy req = true →
      bm.validatePipe.pipe req.body = .ok .undef →
      (∀ c ∈ splitSemiSpace (req.headersCookie.getD "").toList [],
        String.mk ((splitEq c []).getD 0 []) ≠ cm.value) →
      (resolveArgs ⟨none, none, some bm, none, some cm, none, none⟩ req
        (freshArgs n)).2 = some (.helper 400 "Bad Request")) ∧
    expressHelperEndpoint (.helper 400 "Bad Request") =
      ⟨some (.jsonRes 400 (.messageObject "Bad Request")), false, none⟩ := by
  refine ⟨?_, ?_, ?_, rfl⟩
  · intro ql pre post b req st hpre hmiss
    exact resolveArgs_mdOnly_path_err _ ql req st _
      (resolveParamList_missing _ pre b post hpre hmiss st)
  · intro pl pre post b req st hpl hpre hmiss
    have hpath := resolveParamList_bridge (lookupStr req.params) pl [] st
    rw [pureParamScan_success _ _ hpl []] at hpath
    have hpath2 : resolveParamList (lookupStr req.params) pl st =
        (applyWrites (paramWrites (lookupStr req.params) pl) st, none) := hpath
    apply resolveArgs_mdOnly_query_err pl _ req st _ (by rw [hpath2])
    rw [hpath2]
    exact resolveParamList_missing _ pre b post hpre hmiss _
  · intro cm bm req n hjar hhdr hbody hnm
    have hbstep : bodyStep ⟨none, none, some bm, none, some cm, none, none⟩ req
        (freshArgs n) = (setArg (freshArgs n) bm.paramIndex .undef, none) := by
      show (match bm.validatePipe.pipe req.body with
        | .error e => (freshArgs n, some e)
        | .ok v => (setArg (freshArgs n) bm.paramIndex v, none)) = _
      rw [hbody]
    show (andThenStep (bodyStep ⟨none, none, some bm, none, some cm, none, none⟩ req
      (freshArgs n)) _).2 = _
    rw [hbstep]
    show (cookieStep ⟨none, none, some bm, none, some cm, none, none⟩ req
      (setArg (freshArgs n) bm.paramIndex .undef)).2 = _
    simp only [cookieStep, hjar, hhdr]
    rw [if_pos trivial]
    rw [cookieFallbackScan_no_match cm bm.paramIndex _ hnm]
    show (match (((freshArgs n).set bm.paramIndex JsValue.undef).getD bm.paramIndex
        JsValue.undef) with
      | JsValue.undef => (((freshArgs n).set bm.paramIndex JsValue.undef),
          some (JsError.helper 400 "Bad Request"))
      | _ => (((freshArgs n).set bm.paramIndex JsValue.undef),
          (none : Option JsError))).2 = _
    rw [getD_set_replicate_undef]

theorem C6_missing_key_amended_witness :
    (resolveArgs (mdOnlyParams [⟨"id", 0, ParseEmptyPipe⟩] [])
      ⟨[], [], none, none, .undef, .undef⟩ (freshArgs 1)).2 =
      some (.helper 400 "Bad Request") ∧
    (resolveArgs (mdOnlyParams [] [⟨"q", 0, ParseEmptyPipe⟩])
      ⟨[], [], none, none, .undef, .undef⟩ (freshArgs 1)).2 =
      some (.helper 400 "Bad Request") ∧
    (resolveArgs ⟨none, none, some ⟨0, ParseEmptyPipe⟩, none,
        some ⟨"sid", 1, ParseEmptyPipe⟩, none, none⟩
      ⟨[], [], none, some "j=w", .undef, .undef⟩ (freshArgs 2)).2 =
      some (.helper 400 "Bad Request") := by
  refine ⟨?_, ?_, ?_⟩
  · exact C6_missing_key_amended.1 [] [] [] ⟨"id", 0, ParseEmptyPipe⟩
      ⟨[], [], none, none, .undef, .undef⟩ (freshArgs 1)
      (fun a ha => absurd ha (List.not_mem_nil a)) rfl
  · exact C6_missing_key_amended.2.1 [] [] [] ⟨"q", 0, ParseEmptyPipe⟩
      ⟨[], [], none, none, .undef, .undef⟩ (freshArgs 1)
      (fun a ha => absurd ha (List.not_mem_nil a))
      (fun a ha => absurd ha (List.not_mem_nil a)) rfl
  · exact C6_missing_key_amended.2.2.1 ⟨"sid", 1, ParseEmptyPipe⟩ ⟨0, ParseEmptyPipe⟩
      ⟨[], [], none, some "j=w", .undef, .undef⟩ 2 rfl rfl rfl (by decide)

/-- C7 counterexample: a thrown value that is not an `Error` instance (here
the string `"oops"`) matches neither `instanceof` branch of
`expressHelperEndpoint`: no response is written, nothing is logged and
nothing is re-thrown, although the claim says every non-domain error is
logged, answered with a 500 and re-surfaced. -/
theorem C7_counterexample_non_error_swallowed :
    expressHelperEndpoint (.thrownValue (.strV "oops")) = ⟨none, false, none⟩ ∧
    (⟨none, false, none⟩ : BoundaryOutcome) ≠
      ⟨some (.emptyRes 500), true, some (.thrownValue (.strV "oops"))⟩ := by
  exact ⟨by decide, by decide⟩

/-- C7 (amended): the boundary answers an `ExpressHelperError` with its own
status code and the JSON body `{ message }` (no log, no re-throw); any other
`Error` instance is logged, answered with a bare 500 and re-thrown after
responding; a thrown non-`Error` value is ignored entirely — no response, no
log, no re-throw. -/
theorem C7_error_boundary (sc : Nat) (msg m : String) (v : JsValue) :
    expressHelperEndpoint (.helper sc msg) =
      ⟨some (.jsonRes sc (.messageObject msg)), false, none⟩ ∧
    expressHelperEndpoint (.genericError m) =
      ⟨some (.emptyRes 500), true, some (.genericError m)⟩ ∧
    expressHelperEndpoint (.thrownValue v) = ⟨none, false, none⟩ :=
  ⟨rfl, rfl, rfl⟩

theorem C7_error_boundary_witness :
    expressHelperEndpoint (.genericError "boom") =
      ⟨some (.emptyRes 500), true, some (.genericError "boom")⟩ :=
  (C7_error_boundary 0 "" "boom" .undef).2.1

theorem C3_rest_adapter_truthiness_witness :
    restControllerHandler none (.ok (.strV "x")) =
      .respond (.jsonRes 200 (.ofValue (.strV "x"))) := by
  have h := (C3_rest_adapter_truthiness none (.strV "x") (.helper 0 "")).1
  rw [h]
  decide

/-- C9: the view-style adapter serves a string return value as the view file
at that name relative to the configured views directory, with the configured
(default 200) status; any non-string return value is forwarded as
`ExpressHelperError(400, "Invalid View Path Type")`, which the boundary turns
into a 400 response with JSON body `{"message": "Invalid View Path Type"}`;
thrown errors are likewise forwarded. -/
theorem C9_view_adapter (views : String) (statusMeta : Option Nat) (s : String)
    (v : JsValue) (e : JsError) :
    controllerHandler views statusMeta (.ok (.strV s)) =
      .respond (.sendFileRes (effectiveStatusCode statusMeta) (pathJoin views s)) ∧
    ((∀ t : String, v ≠ .strV t) →
      controllerHandler views statusMeta (.ok v) =
        .forward (.helper 400 "Invalid View Path Type")) ∧
    dispatchOutcome (.forward (.helper 400 "Invalid View Path Type")) =
      ⟨some (.jsonRes 400 (.messageObject "Invalid View Path Type")), false, none⟩ ∧
    controllerHandler views statusMeta (.error e) = .forward e ∧
    effectiveStatusCode none = 200 := by
  refine ⟨rfl, ?_, rfl, rfl, rfl⟩
  intro hns
  cases v with
  | strV t => exact absurd rfl (hns t)
  | undef => rfl
  | nullV => rfl
  | boolV b => rfl
  | numV nn => rfl
  | objV id => rfl
  | requestRef => rfl
  | responseRef => rfl

theorem C9_view_adapter_witness :
    controllerHandler "views" none (.ok (.strV "index.html")) =
      .respond (.sendFileRes 200 (pathJoin "views" "index.html")) ∧
    controllerHandler "views" none (.ok (.numV (.val 0))) =
      .forward (.helper 400 "Invalid View Path Type") :=
  ⟨(C9_view_adapter "views" none "index.html" (.numV (.val 0)) (.helper 0 "")).1,
   (C9_view_adapter "views" none "index.html" (.numV (.val 0)) (.helper 0 "")).2.1
     (fun t h => JsValue.noConfusion h)⟩

/-- C10: `HttpMethod.values()` returns exactly `[GET, POST, PATCH, DELETE,
PUT]`; `RequestMapping` stores `[...HttpMethod.values()]` as its method set,
so registration produces exactly five independent route entries per declared
path; HEAD, CONNECT, OPTIONS and TRACE are `HttpMethod` members but never
among them. -/
theorem C10_request_mapping_five_methods (url : String) :
    HttpMethod.values = [.GET, .POST, .PATCH, .DELETE, .PUT] ∧
    RequestMappingMethods = HttpMethod.values ∧
    (registeredRoutes url RequestMappingMethods).length = 5 ∧
    registeredRoutes url RequestMappingMethods =
      [("get", url), ("post", url), ("patch", url), ("delete", url), ("put", url)] ∧
    HttpMethod.HEAD ∉ HttpMethod.values ∧
    HttpMethod.CONNECT ∉ HttpMethod.values ∧
    HttpMethod.OPTIONS ∉ HttpMethod.values ∧
    HttpMethod.TRACE ∉ HttpMethod.values := by
  refine ⟨rfl, rfl, rfl, rfl, by decide, by decide, by decide, by decide⟩

theorem C10_request_mapping_witness :
    (registeredRoutes "/x" RequestMappingMethods).length = 5 :=
  (C10_request_mapping_five_methods "/x").2.2.1

theorem C8_param_resolution_witness :
    (resolveArgs (mdOnlyParams [⟨"name", 0, ParseEmptyPipe⟩, ⟨"id", 1, ParseIntPipe⟩] [])
      reqC2a (freshArgs 2)).2 = none ∧
    (resolveArgs (mdOnlyParams [⟨"name", 0, ParseEmptyPipe⟩, ⟨"id", 1, ParseIntPipe⟩] [])
      reqC2a (freshArgs 2)).1[1]? = some (JsValue.numV (.val 4)) := by
  have h := C8_param_resolution_positional_order_independent
    [⟨"name", 0, ParseEmptyPipe⟩, ⟨"id", 1, ParseIntPipe⟩] [] reqC2a 2
    (fun b hb => by
      rcases List.mem_cons.mp hb with rfl | hb2
      · exact ⟨"foo", rfl, rfl⟩
      · rcases List.mem_cons.mp hb2 with rfl | hb3
        · exact ⟨"4", rfl, by decide⟩
        · exact absurd hb3 (List.not_mem_nil b))
    (fun b hb => absurd hb (List.not_mem_nil b))
    (by
      constructor
      · intro b hb
        rcases List.mem_cons.mp hb with rfl | hb2
        · decide
        · exact absurd hb2 (List.not_mem_nil b)
      constructor
      · intro b hb
        exact absurd hb (List.not_mem_nil b)
      · exact List.Pairwise.nil)
    (fun b hb => by
      rcases List.mem_cons.mp hb with rfl | hb2
      · decide
      · rcases List.mem_cons.mp hb2 with rfl | hb3
        · decide
        · exact absurd hb3 (List.not_mem_nil b))
  refine ⟨h.1, ?_⟩
  have h2 := h.2.1 ⟨"id", 1, ParseIntPipe⟩
    (List.mem_cons_of_mem _ (List.mem_cons_self _ _)) "4" rfl
  exact h2
